import Mathlib

/-!
Verification development for the pbip-mcp TMDL core: a shallow embedding of
`src/pbip_mcp/parsers/tmdl_parser.py` (class `TMDLParser`) and
`src/pbip_mcp/writers/tmdl_writer.py` (class `TMDLWriter`).

A file's text is modelled by its list of lines (the Python code immediately
does `content.split("\n")` and ends with `"\n".join(...)`); `splitLines` and
`joinLines` model that split/join pair exactly, and `joinLines_splitLines`
proves they are inverse, so line-level statements transfer to text-level ones.

Python regular expressions used by the code (`measure\s+(.+?)\s*=\s*(.+)` and
friends) are embedded by effective functions (`eqMatch`, `kwTail`, ...) that
compute the same groups the backtracking matcher produces; they were validated
against the reference semantics on several hundred thousand random inputs.

`json.loads`, `float(...)` and `int(...)` are modelled by explicit parameters
(`jsonLoads`, `pyFloatOk`, `pyIntOf`): every theorem about the parser holds for
an arbitrary choice of these, so nothing depends on the details of JSON or
numeric literal syntax; concrete evaluations instantiate them with the
trivial (always-failing) readers, which is accurate for inputs that contain
no JSON/numeric annotation values.
-/

set_option maxHeartbeats 1000000

namespace Pbip

/-! ## Python string primitives -/

/-- The whitespace characters of Python's `str.strip()` / `\s` that can occur
inside a single line (no `'\n'` survives `content.split("\n")`). -/
def pyWsChar (c : Char) : Bool :=
  c = ' ' || c = '\t' || c = '\n' || c = '\r' || c = Char.ofNat 11 || c = Char.ofNat 12

/-- Drop trailing characters satisfying `p`. -/
def dropTrail (p : Char → Bool) (l : List Char) : List Char :=
  (l.reverse.dropWhile p).reverse

/-- Python `s.strip()`. -/
def pyStrip (s : String) : String :=
  ⟨dropTrail pyWsChar (s.data.dropWhile pyWsChar)⟩

/-- Python truthiness of `line.strip()`: the line has a non-whitespace char. -/
def nonBlank (s : String) : Bool := pyStrip s ≠ ""

/-- Python `line.strip() == ""`. -/
def isBlank (s : String) : Bool := pyStrip s = ""

/-- Python `s.startswith(pre)`. -/
def starts (s pre : String) : Bool := pre.data.isPrefixOf s.data

/-- Python `s.endswith(suf)`. -/
def endsw (s suf : String) : Bool := suf.data.isSuffixOf s.data

/-- Python `sub in s` (substring containment), on char lists. -/
def containsL (l sub : List Char) : Bool :=
  sub.isPrefixOf l || (match l with
    | [] => false
    | _ :: t => containsL t sub)

/-- Python `sub in s`. -/
def containsSub (s sub : String) : Bool := containsL s.data sub.data

/-- Python `content.split("\n")` (single-character separator). -/
def splitLines (content : String) : List String :=
  (content.data.splitOn '\n').map (fun cs => ⟨cs⟩)

/-- Python `"\n".join(lines)`. -/
def joinLines (lines : List String) : String :=
  ⟨(['\n'] : List Char).intercalate (lines.map String.data)⟩

/-- `TMDLParser._get_indentation`: `len(line) - len(line.lstrip("\t "))`. -/
def indentPS (s : String) : Nat :=
  (s.data.takeWhile (fun c => c = '\t' || c = ' ')).length

/-- `TMDLWriter._get_indentation`: `len(line) - len(line.lstrip("\t"))`. -/
def indentTab (s : String) : Nat :=
  (s.data.takeWhile (fun c => c = '\t')).length

/-- `"\t" * n`. -/
def tabs (n : Nat) : String := ⟨List.replicate n '\t'⟩

/-- Python `s.lower()` (ASCII model). -/
def lowerStr (s : String) : String := ⟨s.data.map Char.toLower⟩

/-- Python `s.strip("'\"")`: strip all leading/trailing quote characters. -/
def stripQuoteChars (s : String) : String :=
  ⟨dropTrail (fun c => c = '\'' || c = '"') (s.data.dropWhile (fun c => c = '\'' || c = '"'))⟩

/-- Python `s[1:-1]`. -/
def dropEnds (s : String) : String := ⟨(s.data.drop 1).dropLast⟩

/-- `s[1:-1]` applied when `s` is wrapped in a matching pair of quotes
(the check several parser routines perform before unquoting a name). -/
def isQuotedPair (s : String) : Bool :=
  (starts s "'" && endsw s "'") || (starts s "\"" && endsw s "\"")

/-- Strip one quote layer when present (`name[1:-1]` under `isQuotedPair`). -/
def unquoteIf (s : String) : String := if isQuotedPair s then dropEnds s else s

/-- Python `s.replace(pat, rep)` on char lists, fuel-structural (any
`fuel ≥ l.length` gives the replace-all semantics; `pat ≠ []` in every use). -/
def replaceGo (pat rep : List Char) : Nat → List Char → List Char
  | 0, l => l
  | _ + 1, [] => []
  | fuel + 1, c :: t =>
    if pat.isPrefixOf (c :: t) ∧ pat ≠ [] then
      rep ++ replaceGo pat rep fuel ((c :: t).drop pat.length)
    else
      c :: replaceGo pat rep fuel t

/-- Python `s.replace(pat, rep)`. -/
def pyReplace (s pat rep : String) : String :=
  ⟨replaceGo pat.data rep.data s.data.length s.data⟩

/-- Python `s.split(sep, 1)` restricted to the part after the first separator
occurrence; `none` when `sep` does not occur. -/
def splitFirstAfter (l sep : List Char) : Option (List Char) :=
  if sep.isPrefixOf l then some (l.drop sep.length)
  else match l with
    | [] => none
    | _ :: t => splitFirstAfter t sep

/-- Python `s.split(sep, 1)[0]`-style prefix before the first occurrence. -/
def splitFirstBefore (l sep : List Char) : Option (List Char) :=
  if sep.isPrefixOf l then some []
  else match l with
    | [] => none
    | c :: t => (splitFirstBefore t sep).map (c :: ·)

/-! ## Effective models of the Python regular expressions

Each function computes exactly the groups that `re.match` produces for the
fixed patterns used by the source (validated by differential testing against
the reference matcher). -/

/-- First index `j ≥ lo` of `u` holding `'='` (with, when `needTail`, at least
one character after it) — the `=` selected by the backtracking matcher. -/
def findEq (u : List Char) (lo : Nat) (needTail : Bool) : Option Nat :=
  (List.range u.length).find? fun j =>
    decide (lo ≤ j) && (u.get? j == some '=') && (!needTail || decide (j + 1 < u.length))

/-- Groups of `re.match(kw + "\s+(.+?)\s*=\s*(.+)")` (when `needTail`) or of
`re.match(kw + "\s+(.+?)\s*=")` (group 2 is then the raw tail, unused).
Group 1 is returned as the matcher produces it; group 2 is returned as the
full tail after the selected `=` — every caller strips it, and stripping the
raw group equals stripping this tail. -/
def eqMatch (needTail : Bool) (kw : String) (s : String) : Option (String × String) :=
  if kw.data.isPrefixOf s.data then
    let u := s.data.drop kw.length
    let w := (u.takeWhile pyWsChar).length
    if w = 0 then none
    else
      match findEq u (w + 1) needTail with
      | some j => some (pyStrip ⟨u.take j⟩, ⟨u.drop (j + 1)⟩)
      | none =>
        if 2 ≤ w ∧ u.get? w = some '=' ∧ (!needTail || decide (w + 1 < u.length)) then
          some (⟨[(u.get? (w - 1)).getD ' ']⟩, ⟨u.drop (w + 1)⟩)
        else none
  else none

/-- Group 1 of `re.match(kw + "\s+(.+)")`. -/
def kwTail (kw : String) (s : String) : Option String :=
  if kw.data.isPrefixOf s.data then
    match s.data.drop kw.length with
    | [] => none
    | c :: _ =>
      if pyWsChar c then
        let u := s.data.drop kw.length
        let v := u.dropWhile pyWsChar
        if v ≠ [] then some ⟨v⟩
        else if 2 ≤ u.length then some ⟨[u.getLast?.getD ' ']⟩
        else none
      else none
  else none

/-- Group 1 of `re.match("column\s+(.+?)(\s*=|$)")` (raw). -/
def colOrEndName (s : String) : Option String :=
  if ("column").data.isPrefixOf s.data then
    let u := s.data.drop 6
    let w := (u.takeWhile pyWsChar).length
    if w = 0 then none
    else
      match findEq u (w + 1) false with
      | some j => some (pyStrip ⟨u.take j⟩)
      | none =>
        if w = u.length then
          if 2 ≤ u.length then some ⟨[u.getLast?.getD ' ']⟩ else none
        else some ⟨u.drop w⟩
  else none

/-- Group 1 of `re.match("table\s+(.+?)$")` (raw). -/
def tableTailName (s : String) : Option String :=
  if ("table").data.isPrefixOf s.data then
    match s.data.drop 5 with
    | [] => none
    | c :: _ =>
      if pyWsChar c then
        let u := s.data.drop 5
        let w := (u.takeWhile pyWsChar).length
        if w = u.length then
          if 2 ≤ u.length then some ⟨[u.getLast?.getD ' ']⟩ else none
        else some ⟨u.drop w⟩
      else none
  else none

/-! ## TMDLWriter (`writers/tmdl_writer.py`)

Loops are embedded fuel-structurally: a loop's value is independent of the
fuel once the fuel is at least the number of remaining iterations, and every
wrapper passes `lines.length + 1`, which always suffices because each
iteration advances the position by at least one line. -/

namespace TMDLWriter

open Pbip

/-- An update value (`updates` dict values are strings, booleans or numbers). -/
inductive UVal where
  | str (s : String)
  | boolV (b : Bool)
  | intV (n : Int)
deriving DecidableEq, Repr

/-- `TMDLWriter._format_value`. -/
def formatValue : UVal → String
  | .str v =>
    if (starts v "\"" && endsw v "\"") || (starts v "'" && endsw v "'") then v
    else "\"" ++ v ++ "\""
  | .boolV b => if b then "true" else "false"
  | .intV n => toString n

/-- Python `str(value)` as used by f-string interpolation. -/
def uvalPyStr : UVal → String
  | .str s => s
  | .boolV b => if b then "True" else "False"
  | .intV n => toString n

/-- The punctuation set of `TMDLWriter._format_element_name`. -/
def punctChars : List Char :=
  ['.', '-', '+', '*', '/', '(', ')', '[', ']', Char.ofNat 123, Char.ofNat 125,
   '@', '#', '$', '%', '^', '&']

/-- `TMDLWriter._format_element_name`. -/
def formatElementName (name : String) : String :=
  if (starts name "'" && endsw name "'") || (starts name "\"" && endsw name "\"") then
    name
  else
    let needsQuotes :=
      containsSub name " " || name.data.any (punctChars.contains ·) ||
      ["table", "column", "measure", "partition", "relationship"].contains (lowerStr name)
    if needsQuotes then "'" ++ name ++ "'" else name

/-- `TMDLWriter._to_tmdl_property_name`. -/
def toTmdlProp (p : String) : String :=
  if p = "format_string" then "formatString"
  else if p = "data_type" then "dataType"
  else if p = "summarize_by" then "summarizeBy"
  else if p = "is_hidden" then "isHidden"
  else if p = "lineage_tag" then "lineageTag"
  else if p = "source_column" then "sourceColumn"
  else p

/-- `TMDLWriter._update_expression_line`. -/
def updateExpressionLine (line newExpr : String) : String :=
  if containsSub line " = " then
    ⟨(splitFirstBefore line.data (" = ").data).getD line.data⟩ ++ " = " ++ newExpr
  else line

/-- `TMDLWriter._is_element_definition`. -/
def isElementDefinition (line ty nm : String) : Bool :=
  let s := pyStrip line
  if !starts s (ty ++ " ") then false
  else if ty = "measure" then
    match eqMatch false "measure" s with
    | some (g1, _) => stripQuoteChars (pyStrip g1) == stripQuoteChars nm
    | none => false
  else if ty = "column" then
    match colOrEndName s with
    | some g1 => stripQuoteChars (pyStrip g1) == stripQuoteChars nm
    | none => false
  else if ty = "table" then
    match tableTailName s with
    | some g1 => stripQuoteChars (pyStrip g1) == stripQuoteChars nm
    | none => false
  else false

/-- Inner scan of `_find_insertion_point`: first `j ≥ pos` whose line is
non-blank with tab-indentation `≤ ei`, else `lines.length`. -/
def scanEndW (lines : List String) (ei : Nat) : Nat → Nat → Nat
  | 0, pos => pos
  | fuel + 1, pos =>
    if pos < lines.length then
      if nonBlank (lines.getD pos "") && indentTab (lines.getD pos "") ≤ ei then pos
      else scanEndW lines ei fuel (pos + 1)
    else pos

/-- Outer loop of `_find_insertion_point`: the running `last_similar_element`. -/
def fipGo (lines : List String) (ty : String) : Nat → Nat → Option Nat → Option Nat
  | 0, _, acc => acc
  | fuel + 1, i, acc =>
    if i < lines.length then
      let line := lines.getD i ""
      if starts (pyStrip line) (ty ++ " ") then
        fipGo lines ty fuel (i + 1)
          (some (scanEndW lines (indentTab line) (lines.length + 1) (i + 1) - 1))
      else fipGo lines ty fuel (i + 1) acc
    else acc

/-- `TMDLWriter._find_insertion_point` (`context` never supplies a position). -/
def findInsertionPoint (lines : List String) (ty : String) : Nat :=
  match fipGo lines ty (lines.length + 1) 0 none with
  | some last => last + 1
  | none =>
    if ty = "measure" then
      match lines.findIdx? (fun l =>
          starts (pyStrip l) "column " || starts (pyStrip l) "partition ") with
      | some i => i
      | none => lines.length - 3
    else if ty = "column" then
      match lines.findIdx? (fun l => starts (pyStrip l) "partition ") with
      | some i => i
      | none => lines.length - 3
    else lines.length - 3

/-- Python `list.insert(n, a)` (clamps to append past the end). -/
def pyInsert (l : List String) (n : Nat) (a : String) : List String :=
  l.take n ++ a :: l.drop n

/-- The element-insertion loop of `add_element`: insert the i-th block line at
`p + i`. -/
def insertSeq (acc : List String) (p : Nat) : List String → List String
  | [] => acc
  | e :: es => insertSeq (pyInsert acc p e) (p + 1) es

/-- `TMDLWriter.add_element` on the line list (`indentLevel` is
`parent_context.get("indent_level", 1)`, i.e. 1 when no context is given). -/
def addElementLines (lines : List String) (ty defStr : String) (indentLevel : Nat) :
    List String :=
  let p := findInsertionPoint lines ty
  let els := (splitLines (pyStrip defStr)).map (fun l => tabs indentLevel ++ l)
  let l1 := insertSeq lines p els
  if p + els.length < l1.length ∧ nonBlank (l1.getD (p + els.length) "") then
    pyInsert l1 (p + els.length) ""
  else l1

/-- `TMDLWriter.add_element`. -/
def addElement (content ty defStr : String) (indentLevel : Nat) : String :=
  joinLines (addElementLines (splitLines content) ty defStr indentLevel)

/-- `TMDLWriter._add_new_properties`. -/
def addNewProps (indentLevel : Nat) (upd : List (String × UVal)) (done : List String) :
    List String :=
  upd.filterMap fun pv =>
    if !done.contains pv.1 && pv.1 != "expression" && pv.1 != "name" then
      let tp := toTmdlProp pv.1
      if (match pv.2 with | .boolV true => true | _ => false) &&
          (tp == "isHidden" || tp == "isPrivate") then
        some (tabs indentLevel ++ tp)
      else
        some (tabs indentLevel ++ tp ++ ": " ++ formatValue pv.2)
    else none

/-- Lookup in the `updates` dict (association list with distinct keys). -/
def updLookup (upd : List (String × UVal)) (k : String) : Option UVal :=
  (upd.find? (fun pv => pv.1 == k)).map (·.2)

/-- Main loop of `TMDLWriter.update_element`. -/
def updGo (lines : List String) (ty nm : String) (upd : List (String × UVal)) :
    Nat → Nat → Bool → Nat → List String → List String → List String
  | 0, _, inEl, elInd, done, acc =>
    if inEl then acc ++ addNewProps (elInd + 1) upd done else acc
  | fuel + 1, pos, inEl, elInd, done, acc =>
    if pos < lines.length then
      let line := lines.getD pos ""
      if isElementDefinition line ty nm then
        if (ty == "measure" || ty == "column") && (updLookup upd "expression").isSome then
          updGo lines ty nm upd fuel (pos + 1) true (indentTab line)
            ("expression" :: done)
            (acc ++ [updateExpressionLine line
              (uvalPyStr ((updLookup upd "expression").getD (.str "")))])
        else
          updGo lines ty nm upd fuel (pos + 1) true (indentTab line) done (acc ++ [line])
      else if inEl then
        if nonBlank line && indentTab line ≤ elInd then
          updGo lines ty nm upd fuel (pos + 1) false elInd done
            ((acc ++ addNewProps (elInd + 1) upd done) ++ [line])
        else
          match upd.find? (fun pv =>
              pv.1 != "expression" && starts (pyStrip line) (toTmdlProp pv.1 ++ ":")) with
          | some pv =>
            updGo lines ty nm upd fuel (pos + 1) true elInd (pv.1 :: done)
              (acc ++ [tabs (elInd + 1) ++ toTmdlProp pv.1 ++ ": " ++ formatValue pv.2])
          | none =>
            updGo lines ty nm upd fuel (pos + 1) true elInd done (acc ++ [line])
      else
        updGo lines ty nm upd fuel (pos + 1) inEl elInd done (acc ++ [line])
    else
      if inEl then acc ++ addNewProps (elInd + 1) upd done else acc

/-- `TMDLWriter.update_element` on the line list. -/
def updateElementLines (lines : List String) (ty nm : String)
    (upd : List (String × UVal)) : List String :=
  updGo lines ty nm upd (lines.length + 1) 0 false 0 [] []

/-- `TMDLWriter.update_element`. -/
def updateElement (content ty nm : String) (upd : List (String × UVal)) : String :=
  joinLines (updateElementLines (splitLines content) ty nm upd)

/-- Main loop of `TMDLWriter.delete_element`.  State: `inEl`/`elInd` for the
block being removed, `skipEmpty` for the blank-skip flag, `rd`/`di` for the
description-comment removal. -/
def delGo (lines : List String) (ty nm : String) :
    Nat → Nat → Bool → Nat → Bool → Bool → Nat → List String → List String
  | 0, _, _, _, _, _, _, acc => acc
  | fuel + 1, pos, inEl, elInd, skipEmpty, rd, di, acc =>
    if pos < lines.length then
      let line := lines.getD pos ""
      if !inEl && decide (pos + 1 < lines.length) &&
          isElementDefinition (lines.getD (pos + 1) "") ty nm &&
          starts (pyStrip line) "///" then
        delGo lines ty nm fuel (pos + 1) inEl elInd skipEmpty true (indentTab line) acc
      else if rd && starts (pyStrip line) "///" && (indentTab line == di) then
        delGo lines ty nm fuel (pos + 1) inEl elInd skipEmpty true di acc
      else if isElementDefinition line ty nm then
        delGo lines ty nm fuel (pos + 1) true (indentTab line) true false di acc
      else if inEl then
        if nonBlank line && indentTab line ≤ elInd then
          delGo lines ty nm fuel (pos + 1) false elInd false false di (acc ++ [line])
        else
          delGo lines ty nm fuel (pos + 1) true elInd skipEmpty false di acc
      else if skipEmpty && isBlank line then
        delGo lines ty nm fuel (pos + 1) false elInd false false di acc
      else
        delGo lines ty nm fuel (pos + 1) false elInd false false di (acc ++ [line])
    else acc

/-- `TMDLWriter.delete_element` on the line list. -/
def deleteElementLines (lines : List String) (ty nm : String) : List String :=
  delGo lines ty nm (lines.length + 1) 0 false 0 false false 0 []

/-- `TMDLWriter.delete_element`. -/
def deleteElement (content ty nm : String) : String :=
  joinLines (deleteElementLines (splitLines content) ty nm)

/-- `TMDLWriter.format_column_definition`; `freshTag` stands for the
`uuid.uuid4()` generated when no lineage tag is supplied. -/
def formatColumnDefinition (name dataType : String)
    (expression formatString summarizeBy : Option String) (isHidden : Bool)
    (lineageTag : Option String) (freshTag : String) : String :=
  let tag := if lineageTag.getD "" = "" then freshTag else lineageTag.getD ""
  let fn := formatElementName name
  let l0 :=
    if expression.getD "" ≠ "" then ["column " ++ fn ++ " = " ++ expression.getD ""]
    else ["column " ++ fn]
  let l1 := l0 ++ ["\tdataType: " ++ dataType, "\tlineageTag: " ++ tag]
  let l2 := l1 ++ (if formatString.getD "" ≠ "" then
    ["\tformatString: \"" ++ formatString.getD "" ++ "\""] else [])
  let l3 := l2 ++ (if summarizeBy.getD "" ≠ "" then
    ["\tsummarizeBy: " ++ summarizeBy.getD ""] else [])
  let l4 := l3 ++ (if isHidden then ["\tisHidden"] else [])
  joinLines l4

end TMDLWriter

/-! ## TMDLParser (`parsers/tmdl_parser.py`)

Every construct parser takes the line list and a position and returns its
result together with the position it leaves `current_line` at; parsers that
can raise `TMDLParseError` (or hit a bare `int(...)`) return `Except PErr`.
Loops are fuel-structural as in the writer. -/

/-- A decoded JSON document (the result of `json.loads`). -/
inductive Jv where
  | jnull
  | jbool (b : Bool)
  | jnum (tok : String)
  | jstr (s : String)
  | jarr (elems : List Jv)
  | jobj (fields : List (String × Jv))

/-- Python's numeric/JSON readers, supplied as parameters: `jsonLoads` models
`json.loads` (`none` = `JSONDecodeError`), `pyFloatOk` models whether
`float(s)` succeeds, `pyIntOf` models `int(s)` (`none` = `ValueError`).
All parser theorems hold for an arbitrary choice. -/
structure PyPrims where
  jsonLoads : String → Option Jv
  pyFloatOk : String → Bool
  pyIntOf : String → Option Int

/-- The trivial readers: accurate for inputs whose annotation values involve
no JSON or numeric literals. -/
def trivPrims : PyPrims :=
  { jsonLoads := fun _ => none, pyFloatOk := fun _ => false, pyIntOf := fun _ => none }

/-- `TMDLParseError` (with its 1-based line number), and the uncaught
`ValueError` a bare `int(...)` conversion can raise. -/
inductive PErr where
  | parseError (msg : String) (line : Nat)
  | valueError (tok : String)
deriving DecidableEq, Repr

/-- A parsed annotation value (floats are represented by their token). -/
inductive AnnValue where
  | str (s : String)
  | jsonV (d : Jv)
  | boolV (b : Bool)
  | floatTok (s : String)
  | intV (n : Int)

/-- A parsed `annotation name = value` pair. -/
structure Annot where
  name : String
  value : AnnValue

/-- Dict produced by `_parse_variation`. -/
structure VariationR where
  name : String
  is_default : Bool := false
  relationship : Option String := none
  default_hierarchy : Option String := none

/-- Dict produced by `_parse_hierarchy_level`. -/
structure HierLevelR where
  name : String
  lineage_tag : String := ""
  column : String := ""

/-- Dict produced by `_parse_hierarchy`. -/
structure HierarchyR where
  name : String
  lineage_tag : String := ""
  levels : List HierLevelR := []
  annotations : List Annot := []

/-- Dict produced by `_parse_partition`. -/
structure PartitionR where
  name : String
  mode : String
  source : String := ""

/-- Dict produced by `_parse_calculation_item`. -/
structure CalcItemR where
  name : String
  expression : String

/-- Dict produced by `_parse_calculation_group`. -/
structure CalcGroupR where
  precedence : Option Int := none
  calculation_items : List CalcItemR := []

/-- Dict produced by `_parse_column`. -/
structure ColumnR where
  name : String
  lineage_tag : String := ""
  data_type : String := "string"
  summarize_by : String := "none"
  annotations : List Annot := []
  is_hidden : Bool := false
  is_name_inferred : Bool := false
  expression : Option String := none
  format_string : Option String := none
  source_column : Option String := none
  data_category : Option String := none
  sort_by_column : Option String := none
  variation : Option VariationR := none
  description : Option String := none

/-- Dict produced by `_parse_measure`. -/
structure MeasureR where
  name : String
  expression : String
  lineage_tag : String := ""
  annotations : List Annot := []
  is_hidden : Bool := false
  format_string : Option String := none
  display_folder : Option String := none
  description : Option String := none

/-- Dict produced by `_parse_relationship`. -/
structure RelationshipR where
  name : String
  is_active : Bool := true
  from_table : Option String := none
  from_column : Option String := none
  to_table : Option String := none
  to_column : Option String := none
  join_on_date_behavior : Option String := none
  cardinality : Option String := none
  cross_filtering_behavior : Option String := none

/-- Dict produced by `_parse_table`. -/
structure TableR where
  name : String
  columns : List ColumnR := []
  measures : List MeasureR := []
  hierarchies : List HierarchyR := []
  partitions : List PartitionR := []
  annotations : List Annot := []
  is_hidden : Bool := false
  is_private : Bool := false
  show_as_variations_only : Bool := false
  lineage_tag : Option String := none
  calculation_group : Option CalcGroupR := none
  description : Option String := none

/-- Dict produced by `_parse_data_access_options`. -/
structure DaoR where
  legacy_redirects : Bool := false
  return_error_values_as_null : Bool := false

/-- Dict produced by `_parse_model` (its `tables`/`relationships`/... lists
are created empty and never filled by the parser). -/
structure ModelR where
  name : String
  culture : Option String := none
  default_power_bi_data_source_version : Option String := none
  discourage_implicit_measures : Bool := false
  source_query_culture : Option String := none
  annotations : List Annot := []
  table_refs : List String := []
  culture_refs : List String := []
  data_access_options : Option DaoR := none

/-- Dict produced by `_parse_culture_info`. -/
structure CultureR where
  name : String
  linguistic_metadata : Option Jv := none
  content_type : Option String := none

/-- Dict produced by `_parse_database`. -/
structure DatabaseR where
  compatibility_level : Option Int := none

/-- Dict produced by `TMDLParser.parse_file`. -/
structure DocR where
  model : Option ModelR := none
  tables : List TableR := []
  relationships : List RelationshipR := []
  culture_infos : List CultureR := []
  database : Option DatabaseR := none
  annotations : List Annot := []
  table_refs : List String := []
  culture_refs : List String := []

/-- `TMDLParser._parse_property_value`: value after the first `:`, stripped,
one matching quote layer removed. -/
def parsePropValue (line : String) : String :=
  if containsSub line ":" then
    let v := pyStrip ⟨(splitFirstAfter line.data (":").data).getD []⟩
    if starts v "\"" && endsw v "\"" then dropEnds v
    else if starts v "'" && endsw v "'" then dropEnds v
    else v
  else ""

/-- `TMDLParser._parse_annotation_value`. -/
def parseAnnotValue (pr : PyPrims) (vs0 : String) : AnnValue :=
  let vs := pyStrip vs0
  if starts vs "\"" && endsw vs "\"" then .str (dropEnds vs)
  else if starts vs "'" && endsw vs "'" then .str (dropEnds vs)
  else if vs.data.head? = some (Char.ofNat 123) || vs.data.head? = some '[' then
    match pr.jsonLoads vs with
    | some d => .jsonV d
    | none => .str vs
  else if lowerStr vs = "true" || lowerStr vs = "false" then .boolV (lowerStr vs = "true")
  else if containsSub vs "." then
    if pr.pyFloatOk vs then .floatTok vs else .str vs
  else
    match pr.pyIntOf vs with
    | some n => .intV n
    | none => .str vs

/-- `TMDLParser._parse_annotation` (single line; advances by one). -/
def parseAnnot (pr : PyPrims) (lines : List String) (pos : Nat) :
    Except PErr (Annot × Nat) :=
  let line := pyStrip (lines.getD pos "")
  match eqMatch true "annotation" line with
  | some (g1, g2) => .ok ({ name := g1, value := parseAnnotValue pr g2 }, pos + 1)
  | none => .error (.parseError "Invalid annotation definition" (pos + 1))

/-- Loop of `TMDLParser._parse_multiline_expression`. -/
def multilineGo (lines : List String) :
    Nat → Nat → Option Nat → List String → (List String × Nat)
  | 0, pos, _, acc => (acc, pos)
  | fuel + 1, pos, base, acc =>
    if pos < lines.length then
      let line := lines.getD pos ""
      if isBlank line then multilineGo lines fuel (pos + 1) base acc
      else
        let indent := indentPS line
        match base with
        | none =>
          let cleaned := if line.length > indent then (⟨line.data.drop indent⟩ : String)
            else pyStrip line
          multilineGo lines fuel (pos + 1) (some indent) (acc ++ [cleaned])
        | some b =>
          if indent < b then (acc, pos)
          else
            let cleaned := if line.length > b then (⟨line.data.drop b⟩ : String)
              else pyStrip line
            multilineGo lines fuel (pos + 1) (some b) (acc ++ [cleaned])
    else (acc, pos)

/-- `TMDLParser._parse_multiline_expression`. -/
def parseMultiline (lines : List String) (pos : Nat) : (String × Nat) :=
  let (ls, p) := multilineGo lines (lines.length + 1) pos none []
  (pyStrip (joinLines ls), p)

/-- `TMDLParser._parse_source` (a single-line `source =` does not advance). -/
def parseSource (lines : List String) (pos : Nat) : (String × Nat) :=
  let line := pyStrip (lines.getD pos "")
  if starts line "source =" then (pyStrip (pyReplace line "source =" ""), pos)
  else if starts line "source" then parseMultiline lines (pos + 1)
  else ("", pos)

/-- One dispatch step of the `_parse_variation` loop. -/
def variationStep (line : String) (v : VariationR) : VariationR :=
  let lc := pyStrip line
  if starts lc "isDefault" then { v with is_default := true }
  else if starts lc "relationship:" then { v with relationship := some (parsePropValue lc) }
  else if starts lc "defaultHierarchy:" then
    { v with default_hierarchy := some (parsePropValue lc) }
  else v

/-- Loop of `TMDLParser._parse_variation`. -/
def variationGo (lines : List String) :
    Nat → Nat → Option Nat → VariationR → (VariationR × Nat)
  | 0, pos, _, v => (v, pos)
  | fuel + 1, pos, base, v =>
    if pos < lines.length then
      let line := lines.getD pos ""
      if isBlank line then variationGo lines fuel (pos + 1) base v
      else
        let indent := indentPS line
        match base with
        | none => variationGo lines fuel (pos + 1) (some indent) (variationStep line v)
        | some b =>
          if indent ≤ b then (v, pos)
          else variationGo lines fuel (pos + 1) (some b) (variationStep line v)
    else (v, pos)

/-- `TMDLParser._parse_variation`. -/
def parseVariation (lines : List String) (pos : Nat) : Except PErr (VariationR × Nat) :=
  let line := pyStrip (lines.getD pos "")
  match kwTail "variation" line with
  | none => .error (.parseError "Invalid variation definition" (pos + 1))
  | some nm => .ok (variationGo lines (lines.length + 1) (pos + 1) none { name := nm })

/-- One dispatch step of the `_parse_hierarchy_level` loop. -/
def hierLevelStep (line : String) (v : HierLevelR) : HierLevelR :=
  let lc := pyStrip line
  if starts lc "lineageTag:" then { v with lineage_tag := parsePropValue lc }
  else if starts lc "column:" then { v with column := parsePropValue lc }
  else v

/-- Loop of `TMDLParser._parse_hierarchy_level`. -/
def hierLevelGo (lines : List String) :
    Nat → Nat → Option Nat → HierLevelR → (HierLevelR × Nat)
  | 0, pos, _, v => (v, pos)
  | fuel + 1, pos, base, v =>
    if pos < lines.length then
      let line := lines.getD pos ""
      if isBlank line then hierLevelGo lines fuel (pos + 1) base v
      else
        let indent := indentPS line
        match base with
        | none => hierLevelGo lines fuel (pos + 1) (some indent) (hierLevelStep line v)
        | some b =>
          if indent ≤ b then (v, pos)
          else hierLevelGo lines fuel (pos + 1) (some b) (hierLevelStep line v)
    else (v, pos)

/-- `TMDLParser._parse_hierarchy_level`. -/
def parseHierLevel (lines : List String) (pos : Nat) : Except PErr (HierLevelR × Nat) :=
  let line := pyStrip (lines.getD pos "")
  match kwTail "level" line with
  | none => .error (.parseError "Invalid hierarchy level definition" (pos + 1))
  | some nm => .ok (hierLevelGo lines (lines.length + 1) (pos + 1) none { name := nm })

/-- Loop of `TMDLParser._parse_hierarchy`. -/
def hierarchyGo (pr : PyPrims) (lines : List String) :
    Nat → Nat → Option Nat → HierarchyR → Except PErr (HierarchyR × Nat)
  | 0, pos, _, h => .ok (h, pos)
  | fuel + 1, pos, base, h =>
    if pos < lines.length then
      let line := lines.getD pos ""
      if isBlank line then hierarchyGo pr lines fuel (pos + 1) base h
      else
        let indent := indentPS line
        let lc := pyStrip line
        let exit : Bool :=
          match base with
          | none => false
          | some b => indent ≤ b && !(starts lc "level" || starts lc "annotation")
        if exit then .ok (h, pos)
        else
          let base' := match base with | none => some indent | some b => some b
          if starts lc "lineageTag:" then
            hierarchyGo pr lines fuel (pos + 1) base'
              { h with lineage_tag := parsePropValue lc }
          else if starts lc "level " then
            match parseHierLevel lines pos with
            | .error e => .error e
            | .ok (lvl, p') =>
              hierarchyGo pr lines fuel p' base' { h with levels := h.levels ++ [lvl] }
          else if starts lc "annotation " then
            match parseAnnot pr lines pos with
            | .error e => .error e
            | .ok (a, p') =>
              hierarchyGo pr lines fuel p' base' { h with annotations := h.annotations ++ [a] }
          else hierarchyGo pr lines fuel (pos + 1) base' h
    else .ok (h, pos)

/-- `TMDLParser._parse_hierarchy`. -/
def parseHierarchy (pr : PyPrims) (lines : List String) (pos : Nat) :
    Except PErr (HierarchyR × Nat) :=
  let line := pyStrip (lines.getD pos "")
  match kwTail "hierarchy" line with
  | none => .error (.parseError "Invalid hierarchy definition" (pos + 1))
  | some raw =>
    let nm := unquoteIf (pyStrip raw)
    hierarchyGo pr lines (lines.length + 1) (pos + 1) none { name := nm }

/-- Loop of `TMDLParser._skip_measure_properties`. -/
def skipMeasureGo (lines : List String) : Nat → Nat → Option Nat → Nat
  | 0, pos, _ => pos
  | fuel + 1, pos, base =>
    if pos < lines.length then
      let line := lines.getD pos ""
      if isBlank line then skipMeasureGo lines fuel (pos + 1) base
      else
        let indent := indentPS line
        match base with
        | none => skipMeasureGo lines fuel (pos + 1) (some indent)
        | some b => if indent ≤ b then pos else skipMeasureGo lines fuel (pos + 1) (some b)
    else pos

/-- `TMDLParser._skip_measure_properties`. -/
def skipMeasureProps (lines : List String) (pos : Nat) : Nat :=
  skipMeasureGo lines (lines.length + 1) pos none

/-- One property step of the `_parse_measure` loop (everything except the
`annotation ` branch, which the loop handles itself). -/
def measureStep (line : String) (m : MeasureR) : MeasureR :=
  let lc := pyStrip line
  if starts lc "lineageTag:" then { m with lineage_tag := parsePropValue lc }
  else if starts lc "formatString:" then { m with format_string := some (parsePropValue lc) }
  else if starts lc "isHidden" then { m with is_hidden := true }
  else if starts lc "changedProperty" then m
  else if starts lc "displayFolder:" then { m with display_folder := some (parsePropValue lc) }
  else m

/-- Loop of `TMDLParser._parse_measure`. -/
def measureGo (pr : PyPrims) (lines : List String) :
    Nat → Nat → Option Nat → MeasureR → Except PErr (MeasureR × Nat)
  | 0, pos, _, m => .ok (m, pos)
  | fuel + 1, pos, base, m =>
    if pos < lines.length then
      let line := lines.getD pos ""
      if isBlank line then measureGo pr lines fuel (pos + 1) base m
      else
        let indent := indentPS line
        let lc := pyStrip line
        let exit : Bool :=
          match base with
          | none => false
          | some b => indent ≤ b && !starts lc "annotation"
        if exit then .ok (m, pos)
        else
          let base' := match base with | none => some indent | some b => some b
          if starts lc "annotation " then
            match parseAnnot pr lines pos with
            | .error e => .error e
            | .ok (a, p') =>
              if a.name ≠ "Description" then
                measureGo pr lines fuel p' base' { m with annotations := m.annotations ++ [a] }
              else measureGo pr lines fuel p' base' m
          else measureGo pr lines fuel (pos + 1) base' (measureStep line m)
    else .ok (m, pos)

/-- `TMDLParser._parse_measure` (returns `none` — no record — for a malformed
measure line, after skipping its properties). -/
def parseMeasure (pr : PyPrims) (lines : List String) (pos : Nat) :
    Except PErr (Option MeasureR × Nat) :=
  let line := pyStrip (lines.getD pos "")
  match eqMatch true "measure" line with
  | none => .ok (none, skipMeasureProps lines (pos + 1))
  | some (g1, g2) =>
    let nm := pyStrip g1
    let expr := pyStrip g2
    if containsSub nm " " &&
        !((starts nm "'" && endsw nm "'") || (starts nm "\"" && endsw nm "\"")) then
      .ok (none, skipMeasureProps lines (pos + 1))
    else
      match measureGo pr lines (lines.length + 1) (pos + 1) none
          { name := nm, expression := expr } with
      | .error e => .error e
      | .ok (m, p') => .ok (some m, p')

/-- One property step of the `_parse_column` loop (everything except the
`annotation `/`variation ` branches). -/
def columnStep (line : String) (c : ColumnR) : ColumnR :=
  let lc := pyStrip line
  if starts lc "dataType:" then { c with data_type := parsePropValue lc }
  else if starts lc "lineageTag:" then { c with lineage_tag := parsePropValue lc }
  else if starts lc "summarizeBy:" then { c with summarize_by := parsePropValue lc }
  else if starts lc "formatString:" then { c with format_string := some (parsePropValue lc) }
  else if starts lc "sourceColumn:" then { c with source_column := some (parsePropValue lc) }
  else if starts lc "dataCategory:" then { c with data_category := some (parsePropValue lc) }
  else if starts lc "sortByColumn:" then { c with sort_by_column := some (parsePropValue lc) }
  else if starts lc "isHidden" then { c with is_hidden := true }
  else if starts lc "isNameInferred" then { c with is_name_inferred := true }
  else c

/-- Loop of `TMDLParser._parse_column`. -/
def columnGo (pr : PyPrims) (lines : List String) :
    Nat → Nat → Option Nat → ColumnR → Except PErr (ColumnR × Nat)
  | 0, pos, _, c => .ok (c, pos)
  | fuel + 1, pos, base, c =>
    if pos < lines.length then
      let line := lines.getD pos ""
      if isBlank line then columnGo pr lines fuel (pos + 1) base c
      else
        let indent := indentPS line
        let lc := pyStrip line
        let exit : Bool :=
          match base with
          | none => false
          | some b => indent ≤ b && !(starts lc "annotation" || starts lc "variation")
        if exit then .ok (c, pos)
        else
          let base' := match base with | none => some indent | some b => some b
          if starts lc "annotation " then
            match parseAnnot pr lines pos with
            | .error e => .error e
            | .ok (a, p') =>
              columnGo pr lines fuel p' base' { c with annotations := c.annotations ++ [a] }
          else if starts lc "variation " then
            match parseVariation lines pos with
            | .error e => .error e
            | .ok (v, p') => columnGo pr lines fuel p' base' { c with variation := some v }
          else columnGo pr lines fuel (pos + 1) base' (columnStep line c)
    else .ok (c, pos)

/-- `TMDLParser._parse_column`. -/
def parseColumn (pr : PyPrims) (lines : List String) (pos : Nat) :
    Except PErr (ColumnR × Nat) :=
  let line := pyStrip (lines.getD pos "")
  if containsSub line " = " then
    match eqMatch true "column" line with
    | none => .error (.parseError "Invalid calculated column definition" (pos + 1))
    | some (g1, g2) =>
      let nm := unquoteIf (pyStrip g1)
      columnGo pr lines (lines.length + 1) (pos + 1) none
        { name := nm, expression := some (pyStrip g2) }
  else
    match kwTail "column" line with
    | none => .error (.parseError "Invalid column definition" (pos + 1))
    | some raw =>
      let nm := unquoteIf (pyStrip raw)
      columnGo pr lines (lines.length + 1) (pos + 1) none { name := nm }

/-- `TMDLParser._parse_calculation_item`. -/
def parseCalcItem (lines : List String) (pos : Nat) : Except PErr (CalcItemR × Nat) :=
  let line := pyStrip (lines.getD pos "")
  if containsSub line " = " then
    if !starts line "calculationItem" then
      .error (.parseError "Invalid calculation item definition" (pos + 1))
    else
      let remainder := pyStrip ⟨line.data.drop ("calculationItem").length⟩
      if !containsSub remainder " = " then
        .error (.parseError "Invalid calculation item definition" (pos + 1))
      else
        let namePart := (⟨(splitFirstBefore remainder.data (" = ").data).getD []⟩ : String)
        let exprStart := pyStrip ⟨(splitFirstAfter remainder.data (" = ").data).getD []⟩
        let nm := unquoteIf (pyStrip namePart)
        if exprStart = "" then
          let (e, p') := parseMultiline lines (pos + 1)
          .ok ({ name := nm, expression := e }, p')
        else .ok ({ name := nm, expression := exprStart }, pos + 1)
  else
    match kwTail "calculationItem" line with
    | none => .error (.parseError "Invalid calculation item definition" (pos + 1))
    | some raw =>
      let nm := unquoteIf (pyStrip raw)
      let (e, p') := parseMultiline lines (pos + 1)
      .ok ({ name := nm, expression := e }, p')

/-- Loop of `TMDLParser._parse_calculation_group`. -/
def calcGroupGo (pr : PyPrims) (lines : List String) :
    Nat → Nat → Option Nat → CalcGroupR → Except PErr (CalcGroupR × Nat)
  | 0, pos, _, g => .ok (g, pos)
  | fuel + 1, pos, base, g =>
    if pos < lines.length then
      let line := lines.getD pos ""
      if isBlank line then calcGroupGo pr lines fuel (pos + 1) base g
      else
        let indent := indentPS line
        let lc := pyStrip line
        let exit : Bool :=
          match base with
          | none => false
          | some b => indent ≤ b && !starts lc "calculationItem"
        if exit then .ok (g, pos)
        else
          let base' := match base with | none => some indent | some b => some b
          if starts lc "precedence:" then
            match pr.pyIntOf (parsePropValue lc) with
            | none => .error (.valueError (parsePropValue lc))
            | some n => calcGroupGo pr lines fuel (pos + 1) base' { g with precedence := some n }
          else if starts lc "calculationItem " then
            match parseCalcItem lines pos with
            | .error e => .error e
            | .ok (it, p') =>
              calcGroupGo pr lines fuel p' base'
                { g with calculation_items := g.calculation_items ++ [it] }
          else calcGroupGo pr lines fuel (pos + 1) base' g
    else .ok (g, pos)

/-- `TMDLParser._parse_calculation_group` (skips the `calculationGroup` line). -/
def parseCalcGroup (pr : PyPrims) (lines : List String) (pos : Nat) :
    Except PErr (CalcGroupR × Nat) :=
  calcGroupGo pr lines (lines.length + 1) (pos + 1) none {}

/-- Loop of `TMDLParser._parse_partition`. -/
def partitionGo (lines : List String) :
    Nat → Nat → Option Nat → PartitionR → (PartitionR × Nat)
  | 0, pos, _, p => (p, pos)
  | fuel + 1, pos, base, p =>
    if pos < lines.length then
      let line := lines.getD pos ""
      if isBlank line then partitionGo lines fuel (pos + 1) base p
      else
        let indent := indentPS line
        let lc := pyStrip line
        let exit : Bool :=
          match base with
          | none => false
          | some b => indent ≤ b && !starts lc "source"
        if exit then (p, pos)
        else
          let base' := match base with | none => some indent | some b => some b
          if starts lc "mode:" then
            partitionGo lines fuel (pos + 1) base' { p with mode := parsePropValue lc }
          else if starts lc "source" then
            let (src, p') := parseSource lines pos
            ({ p with source := src }, p')
          else partitionGo lines fuel (pos + 1) base' p
    else (p, pos)

/-- `TMDLParser._parse_partition`. -/
def parsePartition (lines : List String) (pos : Nat) : Except PErr (PartitionR × Nat) :=
  let line := pyStrip (lines.getD pos "")
  if containsSub line " = " then
    match eqMatch true "partition" line with
    | none => .error (.parseError "Invalid partition definition" (pos + 1))
    | some (g1, g2) =>
      .ok (partitionGo lines (lines.length + 1) (pos + 1) none
        { name := pyStrip g1, mode := pyStrip g2 })
  else
    match kwTail "partition" line with
    | none => .error (.parseError "Invalid partition definition" (pos + 1))
    | some raw =>
      .ok (partitionGo lines (lines.length + 1) (pos + 1) none
        { name := pyStrip raw, mode := "import" })

/-- One property step of the `_parse_relationship` loop. -/
def relationshipStep (line : String) (r : RelationshipR) : RelationshipR :=
  let lc := pyStrip line
  if starts lc "fromColumn:" then
    let v := parsePropValue lc
    if containsSub v "." then
      { r with from_table := some ⟨(splitFirstBefore v.data ['.']).getD []⟩,
               from_column := some ⟨(splitFirstAfter v.data ['.']).getD []⟩ }
    else r
  else if starts lc "toColumn:" then
    let v := parsePropValue lc
    if containsSub v "." then
      { r with to_table := some ⟨(splitFirstBefore v.data ['.']).getD []⟩,
               to_column := some ⟨(splitFirstAfter v.data ['.']).getD []⟩ }
    else r
  else if starts lc "joinOnDateBehavior:" then
    { r with join_on_date_behavior := some (parsePropValue lc) }
  else if starts lc "cardinality:" then { r with cardinality := some (parsePropValue lc) }
  else if starts lc "crossFilteringBehavior:" then
    { r with cross_filtering_behavior := some (parsePropValue lc) }
  else if starts lc "isActive:" then
    { r with is_active := lowerStr (parsePropValue lc) = "true" }
  else r

/-- Loop of `TMDLParser._parse_relationship` (exits at indentation `≤ 0`). -/
def relationshipGo (lines : List String) :
    Nat → Nat → Option Nat → RelationshipR → (RelationshipR × Nat)
  | 0, pos, _, r => (r, pos)
  | fuel + 1, pos, base, r =>
    if pos < lines.length then
      let line := lines.getD pos ""
      if isBlank line then relationshipGo lines fuel (pos + 1) base r
      else
        let indent := indentPS line
        match base with
        | none =>
          relationshipGo lines fuel (pos + 1) (some indent) (relationshipStep line r)
        | some b =>
          if indent ≤ 0 then (r, pos)
          else relationshipGo lines fuel (pos + 1) (some b) (relationshipStep line r)
    else (r, pos)

/-- `TMDLParser._parse_relationship` (name is the raw regex group). -/
def parseRelationship (lines : List String) (pos : Nat) :
    Except PErr (RelationshipR × Nat) :=
  let line := pyStrip (lines.getD pos "")
  match kwTail "relationship" line with
  | none => .error (.parseError "Invalid relationship definition" (pos + 1))
  | some nm => .ok (relationshipGo lines (lines.length + 1) (pos + 1) none { name := nm })

/-- Loop of `TMDLParser._parse_json_block` (collects stripped lines until the
indentation drops below the first line's). -/
def jsonBlockGo (lines : List String) :
    Nat → Nat → Option Nat → List String → (List String × Nat)
  | 0, pos, _, acc => (acc, pos)
  | fuel + 1, pos, base, acc =>
    if pos < lines.length then
      let line := lines.getD pos ""
      if isBlank line then jsonBlockGo lines fuel (pos + 1) base acc
      else
        let indent := indentPS line
        match base with
        | none => jsonBlockGo lines fuel (pos + 1) (some indent) (acc ++ [pyStrip line])
        | some b =>
          if indent < b then (acc, pos)
          else jsonBlockGo lines fuel (pos + 1) (some b) (acc ++ [pyStrip line])
    else (acc, pos)

/-- `TMDLParser._parse_json_block` (decode failure degrades to `{}`). -/
def parseJsonBlock (pr : PyPrims) (lines : List String) (pos : Nat) : (Jv × Nat) :=
  let (ls, p') := jsonBlockGo lines (lines.length + 1) pos none []
  match pr.jsonLoads (joinLines ls) with
  | some d => (d, p')
  | none => (.jobj [], p')

/-- Loop of `TMDLParser._parse_culture_info` (exits at indentation `≤ 0`). -/
def cultureGo (pr : PyPrims) (lines : List String) :
    Nat → Nat → Option Nat → CultureR → (CultureR × Nat)
  | 0, pos, _, c => (c, pos)
  | fuel + 1, pos, base, c =>
    if pos < lines.length then
      let line := lines.getD pos ""
      if isBlank line then cultureGo pr lines fuel (pos + 1) base c
      else
        let indent := indentPS line
        let lc := pyStrip line
        let exit : Bool := match base with | none => false | some _ => indent ≤ 0
        if exit then (c, pos)
        else
          let base' := match base with | none => some indent | some b => some b
          if starts lc "linguisticMetadata" then
            let (d, p') := parseJsonBlock pr lines (pos + 1)
            cultureGo pr lines fuel p' base' { c with linguistic_metadata := some d }
          else if starts lc "contentType:" then
            cultureGo pr lines fuel (pos + 1) base' { c with content_type := some (parsePropValue lc) }
          else cultureGo pr lines fuel (pos + 1) base' c
    else (c, pos)

/-- `TMDLParser._parse_culture_info`. -/
def parseCultureInfo (pr : PyPrims) (lines : List String) (pos : Nat) :
    Except PErr (CultureR × Nat) :=
  let line := pyStrip (lines.getD pos "")
  match kwTail "cultureInfo" line with
  | none => .error (.parseError "Invalid culture info definition" (pos + 1))
  | some nm => .ok (cultureGo pr lines (lines.length + 1) (pos + 1) none { name := nm })

/-- Loop of `TMDLParser._parse_database` (exits at indentation `≤ 0`). -/
def databaseGo (pr : PyPrims) (lines : List String) :
    Nat → Nat → DatabaseR → Except PErr (DatabaseR × Nat)
  | 0, pos, d => .ok (d, pos)
  | fuel + 1, pos, d =>
    if pos < lines.length then
      let line := lines.getD pos ""
      if isBlank line then databaseGo pr lines fuel (pos + 1) d
      else if indentPS line ≤ 0 then .ok (d, pos)
      else
        let lc := pyStrip line
        if starts lc "compatibilityLevel:" then
          match pr.pyIntOf (parsePropValue lc) with
          | none => .error (.valueError (parsePropValue lc))
          | some n => databaseGo pr lines fuel (pos + 1) { compatibility_level := some n }
        else databaseGo pr lines fuel (pos + 1) d
    else .ok (d, pos)

/-- `TMDLParser._parse_database` (skips the `database` line). -/
def parseDatabase (pr : PyPrims) (lines : List String) (pos : Nat) :
    Except PErr (DatabaseR × Nat) :=
  databaseGo pr lines (lines.length + 1) (pos + 1) {}

/-- One step of the `_parse_data_access_options` loop (exact-equality tests). -/
def daoStep (line : String) (o : DaoR) : DaoR :=
  let lc := pyStrip line
  if lc = "legacyRedirects" then { o with legacy_redirects := true }
  else if lc = "returnErrorValuesAsNull" then { o with return_error_values_as_null := true }
  else o

/-- Loop of `TMDLParser._parse_data_access_options`. -/
def daoGo (lines : List String) : Nat → Nat → Option Nat → DaoR → (DaoR × Nat)
  | 0, pos, _, o => (o, pos)
  | fuel + 1, pos, base, o =>
    if pos < lines.length then
      let line := lines.getD pos ""
      if isBlank line then daoGo lines fuel (pos + 1) base o
      else
        let indent := indentPS line
        match base with
        | none =>
          daoGo lines fuel (pos + 1) (some indent) (daoStep line o)
        | some b =>
          if indent < b then (o, pos)
          else daoGo lines fuel (pos + 1) (some b) (daoStep line o)
    else (o, pos)

/-- `TMDLParser._parse_data_access_options` (skips its own keyword line). -/
def parseDao (lines : List String) (pos : Nat) : (DaoR × Nat) :=
  daoGo lines (lines.length + 1) (pos + 1) none {}

/-- Python `" ".join(buf)`. -/
def joinSpaces (ls : List String) : String :=
  ⟨([' '] : List Char).intercalate (ls.map String.data)⟩

/-- The description captured before a construct: `None` when the buffer is
empty, otherwise the space-join (attached only when truthy). -/
def bufDesc (buf : List String) : Option String :=
  if buf = [] then none else some (joinSpaces buf)

/-- Loop of `TMDLParser._parse_model`. -/
def modelGo (pr : PyPrims) (lines : List String) :
    Nat → Nat → Option Nat → ModelR → Except PErr (ModelR × Nat)
  | 0, pos, _, m => .ok (m, pos)
  | fuel + 1, pos, base, m =>
    if pos < lines.length then
      let line := lines.getD pos ""
      if isBlank line then modelGo pr lines fuel (pos + 1) base m
      else
        let indent := indentPS line
        let exit : Bool := match base with | none => false | some _ => indent ≤ 0
        if exit then .ok (m, pos)
        else
          let base' := match base with | none => some indent | some b => some b
          let lc := pyStrip line
          if starts lc "culture:" then
            modelGo pr lines fuel (pos + 1) base' { m with culture := some (parsePropValue lc) }
          else if starts lc "defaultPowerBIDataSourceVersion:" then
            modelGo pr lines fuel (pos + 1) base'
              { m with default_power_bi_data_source_version := some (parsePropValue lc) }
          else if starts lc "discourageImplicitMeasures" then
            modelGo pr lines fuel (pos + 1) base' { m with discourage_implicit_measures := true }
          else if starts lc "sourceQueryCulture:" then
            modelGo pr lines fuel (pos + 1) base'
              { m with source_query_culture := some (parsePropValue lc) }
          else if starts lc "annotation " then
            match parseAnnot pr lines pos with
            | .error e => .error e
            | .ok (a, p') =>
              modelGo pr lines fuel p' base' { m with annotations := m.annotations ++ [a] }
          else if starts lc "ref table " then
            modelGo pr lines fuel (pos + 1) base'
              { m with table_refs := m.table_refs ++ [pyStrip (pyReplace lc "ref table " "")] }
          else if starts lc "ref cultureInfo " then
            modelGo pr lines fuel (pos + 1) base'
              { m with culture_refs :=
                  m.culture_refs ++ [pyStrip (pyReplace lc "ref cultureInfo " "")] }
          else if starts lc "dataAccessOptions" then
            let (o, p') := parseDao lines pos
            modelGo pr lines fuel p' base' { m with data_access_options := some o }
          else modelGo pr lines fuel (pos + 1) base' m
    else .ok (m, pos)

/-- `TMDLParser._parse_model`. -/
def parseModel (pr : PyPrims) (lines : List String) (pos : Nat) :
    Except PErr (ModelR × Nat) :=
  let line := pyStrip (lines.getD pos "")
  match kwTail "model" line with
  | none => .error (.parseError "Invalid model definition" (pos + 1))
  | some raw =>
    let nm := pyStrip raw
    if nm = "" then .error (.parseError "Model name cannot be empty" (pos + 1))
    else modelGo pr lines (lines.length + 1) (pos + 1) none { name := nm }

/-- Loop of `TMDLParser._parse_table` (also threads the description buffer). -/
def tableGo (pr : PyPrims) (lines : List String) :
    Nat → Nat → Option Nat → TableR → List String →
    Except PErr (TableR × Nat × List String)
  | 0, pos, _, t, buf => .ok (t, pos, buf)
  | fuel + 1, pos, base, t, buf =>
    if pos < lines.length then
      let line := lines.getD pos ""
      if isBlank line then tableGo pr lines fuel (pos + 1) base t buf
      else
        let indent := indentPS line
        let exit : Bool := match base with | none => false | some _ => indent ≤ 0
        if exit then .ok (t, pos, buf)
        else
          let base' := match base with | none => some indent | some b => some b
          let lc := pyStrip line
          if starts lc "///" then
            tableGo pr lines fuel (pos + 1) base' t (buf ++ [pyStrip ⟨lc.data.drop 3⟩])
          else if starts lc "//" then
            tableGo pr lines fuel (pos + 1) base' t []
          else if starts lc "lineageTag:" then
            tableGo pr lines fuel (pos + 1) base' { t with lineage_tag := some (parsePropValue lc) } buf
          else if starts lc "isHidden" then
            tableGo pr lines fuel (pos + 1) base' { t with is_hidden := true } buf
          else if starts lc "isPrivate" then
            tableGo pr lines fuel (pos + 1) base' { t with is_private := true } buf
          else if starts lc "showAsVariationsOnly" then
            tableGo pr lines fuel (pos + 1) base' { t with show_as_variations_only := true } buf
          else if starts lc "column " then
            let d := bufDesc buf
            match parseColumn pr lines pos with
            | .error e => .error e
            | .ok (c, p') =>
              let c' := if d.getD "" ≠ "" then { c with description := d } else c
              tableGo pr lines fuel p' base' { t with columns := t.columns ++ [c'] } []
          else if starts lc "measure " then
            let d := bufDesc buf
            match parseMeasure pr lines pos with
            | .error e => .error e
            | .ok (none, p') => tableGo pr lines fuel p' base' t []
            | .ok (some me, p') =>
              let me' := if d.getD "" ≠ "" then { me with description := d } else me
              tableGo pr lines fuel p' base' { t with measures := t.measures ++ [me'] } []
          else if starts lc "hierarchy " then
            match parseHierarchy pr lines pos with
            | .error e => .error e
            | .ok (h, p') =>
              tableGo pr lines fuel p' base' { t with hierarchies := t.hierarchies ++ [h] } buf
          else if starts lc "partition " then
            match parsePartition lines pos with
            | .error e => .error e
            | .ok (p, p') =>
              tableGo pr lines fuel p' base' { t with partitions := t.partitions ++ [p] } buf
          else if starts lc "calculationGroup" then
            match parseCalcGroup pr lines pos with
            | .error e => .error e
            | .ok (g, p') =>
              tableGo pr lines fuel p' base' { t with calculation_group := some g } buf
          else if starts lc "annotation " then
            match parseAnnot pr lines pos with
            | .error e => .error e
            | .ok (a, p') =>
              tableGo pr lines fuel p' base' { t with annotations := t.annotations ++ [a] } buf
          else
            tableGo pr lines fuel (pos + 1) base' t []
    else .ok (t, pos, buf)

/-- `TMDLParser._parse_table`. -/
def parseTable (pr : PyPrims) (lines : List String) (pos : Nat) (buf : List String) :
    Except PErr (TableR × Nat × List String) :=
  let line := pyStrip (lines.getD pos "")
  match kwTail "table" line with
  | none => .error (.parseError "Invalid table definition" (pos + 1))
  | some raw =>
    let nm := pyStrip raw
    if nm = "" then .error (.parseError "Table name cannot be empty" (pos + 1))
    else tableGo pr lines (lines.length + 1) (pos + 1) none { name := nm } buf

/-- The recognized top-level construct prefixes of `TMDLParser.parse_file`'s
dispatch, exactly as the claims list them. -/
def recognizedTopLevel (line : String) : Bool :=
  starts line "model " || starts line "table " || starts line "relationship " ||
  starts line "cultureInfo " || starts line "database" || starts line "annotation " ||
  starts line "ref table " || starts line "ref cultureInfo "

/-- Loop of `TMDLParser.parse_file` (threads the result and the description
buffer). -/
def fileGo (pr : PyPrims) (lines : List String) :
    Nat → Nat → DocR → List String → Except PErr DocR
  | 0, _, doc, _ => .ok doc
  | fuel + 1, pos, doc, buf =>
    if pos < lines.length then
      let line := pyStrip (lines.getD pos "")
      if line = "" then fileGo pr lines fuel (pos + 1) doc buf
      else if starts line "///" then
        fileGo pr lines fuel (pos + 1) doc (buf ++ [pyStrip ⟨line.data.drop 3⟩])
      else if starts line "//" then
        fileGo pr lines fuel (pos + 1) doc []
      else if starts line "model " then
        match parseModel pr lines pos with
        | .error e => .error e
        | .ok (m, p') => fileGo pr lines fuel p' { doc with model := some m } buf
      else if starts line "table " then
        let d := bufDesc buf
        match parseTable pr lines pos [] with
        | .error e => .error e
        | .ok (t, p', buf') =>
          let t' := if d.getD "" ≠ "" then { t with description := d } else t
          fileGo pr lines fuel p' { doc with tables := doc.tables ++ [t'] } buf'
      else if starts line "relationship " then
        match parseRelationship lines pos with
        | .error e => .error e
        | .ok (r, p') =>
          fileGo pr lines fuel p' { doc with relationships := doc.relationships ++ [r] } buf
      else if starts line "cultureInfo " then
        match parseCultureInfo pr lines pos with
        | .error e => .error e
        | .ok (c, p') =>
          fileGo pr lines fuel p' { doc with culture_infos := doc.culture_infos ++ [c] } buf
      else if starts line "database" then
        match parseDatabase pr lines pos with
        | .error e => .error e
        | .ok (d, p') => fileGo pr lines fuel p' { doc with database := some d } buf
      else if starts line "annotation " then
        match parseAnnot pr lines pos with
        | .error e => .error e
        | .ok (a, p') =>
          fileGo pr lines fuel p' { doc with annotations := doc.annotations ++ [a] } buf
      else if starts line "ref table " then
        fileGo pr lines fuel (pos + 1)
          { doc with table_refs := doc.table_refs ++ [pyStrip (pyReplace line "ref table " "")] }
          buf
      else if starts line "ref cultureInfo " then
        fileGo pr lines fuel (pos + 1)
          { doc with culture_refs :=
              doc.culture_refs ++ [pyStrip (pyReplace line "ref cultureInfo " "")] }
          buf
      else if line ≠ "" && !starts line "//" then
        .error (.parseError ("Unrecognized TMDL syntax: " ++ line) (pos + 1))
      else fileGo pr lines fuel (pos + 1) doc []
    else .ok doc

/-- `TMDLParser.parse_file`. -/
def parseFile (pr : PyPrims) (content : String) : Except PErr DocR :=
  let lines := splitLines content
  fileGo pr lines (lines.length + 1) 0 {} []

/-! ## Claim C6 — annotation value coercion order -/

/-- The rule chain of claim C6, written as the spec states it: first matching
rule wins, in the order quoted-string, JSON (`{`/`[` start, raw string on
decode failure), case-insensitive boolean, decimal-point float, integer,
raw trimmed string; a conversion rule applies when its conversion succeeds. -/
def annotValueSpec (pr : PyPrims) (vs0 : String) : AnnValue :=
  let vs := pyStrip vs0
  if (starts vs "\"" && endsw vs "\"") || (starts vs "'" && endsw vs "'") then
    .str (dropEnds vs)
  else if vs.data.head? = some (Char.ofNat 123) || vs.data.head? = some '[' then
    match pr.jsonLoads vs with
    | some d => .jsonV d
    | none => .str vs
  else if lowerStr vs = "true" || lowerStr vs = "false" then
    .boolV (lowerStr vs = "true")
  else if containsSub vs "." && pr.pyFloatOk vs then .floatTok vs
  else if !containsSub vs "." && (pr.pyIntOf vs).isSome then
    .intV ((pr.pyIntOf vs).getD 0)
  else .str vs

/-- C6: for every annotation value string (and every choice of the JSON /
float / int readers), `_parse_annotation_value` realizes exactly the
first-match-wins rule chain of the claim: matching surrounding quotes →
unquoted literal; leading `{`/`[` → JSON decode, raw string on failure;
case-insensitive `true`/`false` → boolean; decimal-point token → float;
otherwise attempted integer; otherwise the raw trimmed string. -/
theorem C6_annotation_value_coercion_order (pr : PyPrims) (vs : String) :
    parseAnnotValue pr vs = annotValueSpec pr vs := by
  unfold parseAnnotValue annotValueSpec
  cases hdq : starts (pyStrip vs) "\"" && endsw (pyStrip vs) "\""
  · cases hsq : starts (pyStrip vs) "'" && endsw (pyStrip vs) "'"
    · simp only [hdq, hsq, Bool.false_or, Bool.or_self, if_false, Bool.false_eq_true,
        if_neg, reduceIte]
      cases hj : ((pyStrip vs).data.head? = some (Char.ofNat 123) : Bool)
        <;> cases hj2 : ((pyStrip vs).data.head? = some '[' : Bool)
        <;> simp only [hj, hj2, Bool.false_or, Bool.true_or, Bool.or_self, reduceIte]
      cases hd : containsSub (pyStrip vs) "."
        <;> cases hf : pr.pyFloatOk (pyStrip vs)
        <;> cases hi : pr.pyIntOf (pyStrip vs)
        <;> simp [hd, hf, hi]
    · simp [hdq, hsq]
  · simp [hdq]

/-! ## Claim C7 — format/parse round trip (code bug)

`format_column_definition` emits `dataType`, `lineageTag`, `formatString`,
`summarizeBy`, `isHidden` lines, but `_parse_column`'s block loop records the
first body line's indentation as `base_indent` and exits as soon as it meets a
non-blank line whose indentation is `≤ base_indent` — which the *second*
property line already is.  So only the first property of the formatted block
is ever parsed back, and the spec's round-trip property fails. -/

/-- The concrete column specification on which the round trip fails: a hidden
string column `Notes` with lineage tag `abc`, format string `0.0` and
summarize-by `none`. -/
def c7formatted : String :=
  TMDLWriter.formatColumnDefinition "Notes" "string" none (some "0.0") (some "none")
    true (some "abc") "FRESH"

/-- What `_parse_column` actually reconstructs from that block. -/
def c7parsed : ColumnR := { name := "Notes", data_type := "string", summarize_by := "none" }

/-- C7 (code bug): parsing the formatted block stops after the first property
line (position 2 of 6), so the reconstructed Column keeps the default empty
lineage tag, no format string and `is_hidden = false` — not the supplied
`abc`, `0.0` and `true`.  Only the name, the data type (the first emitted
property) and the expression survive the round trip. -/
theorem C7_format_parse_round_trip_fails :
    parseColumn trivPrims (splitLines c7formatted) 0 = .ok (c7parsed, 2) ∧
    c7parsed.lineage_tag = "" ∧ c7parsed.format_string = none ∧
    c7parsed.is_hidden = false ∧ c7parsed.summarize_by = "none" :=
  ⟨rfl, rfl, rfl, rfl, rfl⟩

/-! ## Claim C8 — top-level syntax errors (corrected)

An unrecognized non-blank, non-comment top-level line is indeed a fatal
`TMDLParseError` carrying the 1-based line number (proved below), but the
converse direction of the claim's "exactly when" fails: construct parsers
also raise — e.g. the recognized line `annotation X` (no ` = `). -/

/-- Prefix transitivity specialized to comment markers: a `///` line is in
particular a `//` line. -/
theorem starts_comment_of_desc {s : String} (h : starts s "///" = true) :
    starts s "//" = true := by
  have hpre : ("///").data.isPrefixOf s.data = true := h
  have h2 : ("//").data <+: ("///").data := by decide
  have h3 : ("///").data <+: s.data := List.isPrefixOf_iff_prefix.mp hpre
  exact List.isPrefixOf_iff_prefix.mpr (h2.trans h3)

/-- C8, amended direction that holds: whenever the top-level loop of
`parse_file` is at a non-blank, non-comment line that starts with none of the
recognized construct prefixes (model, table, relationship, cultureInfo,
database, annotation, ref table, ref cultureInfo), the parse fails with a
`TMDLParseError` carrying that line's 1-based number.  (The claim's converse
fails — see the counterexample.) -/
theorem C8_unrecognized_top_level_errors (pr : PyPrims) (lines : List String)
    (fuel pos : Nat) (doc : DocR) (buf : List String)
    (hpos : pos < lines.length)
    (hnb : pyStrip (lines.getD pos "") ≠ "")
    (hnc : ¬ starts (pyStrip (lines.getD pos "")) "//" = true)
    (hnr : recognizedTopLevel (pyStrip (lines.getD pos "")) = false) :
    fileGo pr lines (fuel + 1) pos doc buf =
      .error (.parseError ("Unrecognized TMDL syntax: " ++ pyStrip (lines.getD pos ""))
        (pos + 1)) := by
  have hdesc : ¬ starts (pyStrip (lines.getD pos "")) "///" = true := fun h =>
    hnc (starts_comment_of_desc h)
  simp only [recognizedTopLevel, Bool.or_eq_false_iff] at hnr
  obtain ⟨⟨⟨⟨⟨⟨⟨h1, h2⟩, h3⟩, h4⟩, h5⟩, h6⟩, h7⟩, h8⟩ := hnr
  simp only [fileGo, if_pos hpos, if_neg hnb, hdesc, Bool.false_eq_true, if_false,
    hnc, h1, h2, h3, h4, h5, h6, h7, h8, hnb, not_false_eq_true, Bool.not_true,
    ne_eq, Bool.not_false, Bool.and_self, if_true, reduceIte, decide_True,
    Bool.and_true, Bool.true_and]

/-- C8, counterexample to the "exactly when" direction: `annotation X` starts
with the recognized prefix `annotation `, yet parsing fails with a
`TMDLParseError` (line 1) raised inside `_parse_annotation`. -/
theorem C8_error_on_recognized_line :
    parseFile trivPrims "annotation X" =
      .error (.parseError "Invalid annotation definition" 1) ∧
    recognizedTopLevel (pyStrip "annotation X") = true :=
  ⟨rfl, rfl⟩

/-- Witness for `C8_unrecognized_top_level_errors` at a concrete state. -/
theorem C8_unrecognized_top_level_errors_witness :
    fileGo trivPrims ["bogus line"] (0 + 1) 0 {} [] =
      .error (.parseError ("Unrecognized TMDL syntax: " ++ pyStrip (["bogus line"].getD 0 ""))
        (0 + 1)) :=
  C8_unrecognized_top_level_errors trivPrims ["bogus line"] 0 0 {} []
    (by decide) (by decide) (by decide) (by decide)

/-! ## Claim C10 — partition default mode -/

/-- The multiline-expression loop never moves backwards. -/
theorem multilineGo_le (lines : List String) :
    ∀ fuel pos base acc, pos ≤ (multilineGo lines fuel pos base acc).2 := by
  intro fuel
  induction fuel with
  | zero => intro pos base acc; simp [multilineGo]
  | succ fuel ih =>
    intro pos base acc
    simp only [multilineGo]
    repeat' split
    any_goals simp
    all_goals exact le_trans (Nat.le_succ pos) (ih _ _ _)

/-- `_parse_multiline_expression` never moves backwards. -/
theorem parseMultiline_le (lines : List String) (pos : Nat) :
    pos ≤ (parseMultiline lines pos).2 := by
  have h := multilineGo_le lines (lines.length + 1) pos none []
  simp only [parseMultiline]
  exact h

/-- `_parse_source` never moves backwards. -/
theorem parseSource_le (lines : List String) (pos : Nat) :
    pos ≤ (parseSource lines pos).2 := by
  simp only [parseSource]
  repeat' split
  any_goals simp
  all_goals exact le_trans (Nat.le_succ pos) (parseMultiline_le lines (pos + 1))

/-- The partition property loop never moves backwards. -/
theorem partitionGo_le (lines : List String) :
    ∀ fuel pos base p, pos ≤ (partitionGo lines fuel pos base p).2 := by
  intro fuel
  induction fuel with
  | zero => intro pos base p; simp [partitionGo]
  | succ fuel ih =>
    intro pos base p
    simp only [partitionGo]
    repeat' split
    any_goals simp
    any_goals exact parseSource_le lines pos
    all_goals exact le_trans (Nat.le_succ pos) (ih _ _ _)

/-- Mode preservation: if no line processed by the partition property loop
starts with `mode:`, the mode field is left unchanged. -/
theorem partitionGo_mode (lines : List String) :
    ∀ fuel pos base p,
      (∀ i, pos ≤ i → i < (partitionGo lines fuel pos base p).2 →
        ¬ starts (pyStrip (lines.getD i "")) "mode:" = true) →
      (partitionGo lines fuel pos base p).1.mode = p.mode := by
  intro fuel
  induction fuel with
  | zero => intro pos base p _; simp [partitionGo]
  | succ fuel ih =>
    intro pos base p hno
    by_cases hpos : pos < lines.length
    case neg => simp [partitionGo, hpos]
    by_cases hblank : isBlank (lines.getD pos "") = true
    · rw [show partitionGo lines (fuel + 1) pos base p
          = partitionGo lines fuel (pos + 1) base p from by
        simp only [partitionGo]
        rw [if_pos hpos, if_pos hblank]] at hno ⊢
      exact ih (pos + 1) base p (fun i h1 h2 => hno i (le_trans (Nat.le_succ pos) h1) h2)
    · cases base with
      | none =>
        by_cases hmode : starts (pyStrip (lines.getD pos "")) "mode:" = true
        · exfalso
          rw [show partitionGo lines (fuel + 1) pos none p
              = partitionGo lines fuel (pos + 1) (some (indentPS (lines.getD pos "")))
                  { p with mode := parsePropValue (pyStrip (lines.getD pos "")) } from by
            simp only [partitionGo]
            rw [if_pos hpos, if_neg hblank, if_neg Bool.false_ne_true, if_pos hmode]] at hno
          exact hno pos (le_refl pos)
            (lt_of_lt_of_le (Nat.lt_succ_self pos) (partitionGo_le lines fuel (pos + 1) _ _))
            hmode
        · by_cases hsrc : starts (pyStrip (lines.getD pos "")) "source" = true
          · rw [show partitionGo lines (fuel + 1) pos none p
                = ({ p with source := (parseSource lines pos).1 }, (parseSource lines pos).2)
                from by
              simp only [partitionGo]
              rw [if_pos hpos, if_neg hblank, if_neg Bool.false_ne_true, if_neg hmode,
                if_pos hsrc]]
          · rw [show partitionGo lines (fuel + 1) pos none p
                = partitionGo lines fuel (pos + 1) (some (indentPS (lines.getD pos ""))) p
                from by
              simp only [partitionGo]
              rw [if_pos hpos, if_neg hblank, if_neg Bool.false_ne_true, if_neg hmode,
                if_neg hsrc]] at hno ⊢
            exact ih (pos + 1) _ p (fun i h1 h2 => hno i (le_trans (Nat.le_succ pos) h1) h2)
      | some b =>
        by_cases hexit : (indentPS (lines.getD pos "") ≤ b &&
            !starts (pyStrip (lines.getD pos "")) "source") = true
        · rw [show partitionGo lines (fuel + 1) pos (some b) p = (p, pos) from by
            simp only [partitionGo]
            rw [if_pos hpos, if_neg hblank, if_pos hexit]]
        · by_cases hmode : starts (pyStrip (lines.getD pos "")) "mode:" = true
          · exfalso
            rw [show partitionGo lines (fuel + 1) pos (some b) p
                = partitionGo lines fuel (pos + 1) (some b)
                    { p with mode := parsePropValue (pyStrip (lines.getD pos "")) } from by
              simp only [partitionGo]
              rw [if_pos hpos, if_neg hblank, if_neg hexit, if_pos hmode]] at hno
            exact hno pos (le_refl pos)
              (lt_of_lt_of_le (Nat.lt_succ_self pos) (partitionGo_le lines fuel (pos + 1) _ _))
              hmode
          · by_cases hsrc : starts (pyStrip (lines.getD pos "")) "source" = true
            · rw [show partitionGo lines (fuel + 1) pos (some b) p
                  = ({ p with source := (parseSource lines pos).1 }, (parseSource lines pos).2)
                  from by
                simp only [partitionGo]
                rw [if_pos hpos, if_neg hblank, if_neg hexit, if_neg hmode, if_pos hsrc]]
            · rw [show partitionGo lines (fuel + 1) pos (some b) p
                  = partitionGo lines fuel (pos + 1) (some b) p from by
                simp only [partitionGo]
                rw [if_pos hpos, if_neg hblank, if_neg hexit, if_neg hmode, if_neg hsrc]]
                at hno ⊢
              exact ih (pos + 1) _ p (fun i h1 h2 => hno i (le_trans (Nat.le_succ pos) h1) h2)

/-- C10: a `partition <name>` block (no ` = ` on the keyword line) whose body
contains no `mode:` property line parses to a partition record with mode
`"import"`. -/
theorem C10_partition_default_mode_import (lines : List String) (pos endPos : Nat)
    (part : PartitionR)
    (hstart : starts (pyStrip (lines.getD pos "")) "partition " = true)
    (hnoeq : containsSub (pyStrip (lines.getD pos "")) " = " = false)
    (hok : parsePartition lines pos = .ok (part, endPos))
    (hbody : ∀ i, pos < i → i < endPos →
      ¬ starts (pyStrip (lines.getD i "")) "mode:" = true) :
    part.mode = "import" := by
  simp only [parsePartition, hnoeq, Bool.false_eq_true, if_false, reduceIte] at hok
  cases hkw : kwTail "partition" (pyStrip (lines.getD pos "")) with
  | none => rw [hkw] at hok; exact absurd hok (by simp)
  | some raw =>
    rw [hkw] at hok
    simp only [Except.ok.injEq] at hok
    have hpart : (partitionGo lines (lines.length + 1) (pos + 1) none
        { name := pyStrip raw, mode := "import", source := "" }).1 = part :=
      congrArg Prod.fst hok
    have hend : (partitionGo lines (lines.length + 1) (pos + 1) none
        { name := pyStrip raw, mode := "import", source := "" }).2 = endPos :=
      congrArg Prod.snd hok
    have hmode := partitionGo_mode lines (lines.length + 1) (pos + 1) none
      { name := pyStrip raw, mode := "import" }
      (fun i h1 h2 => hbody i (Nat.lt_of_succ_le h1) (by rw [hend] at h2; exact h2))
    rw [hpart] at hmode
    exact hmode

/-- Witness for `C10_partition_default_mode_import` on a concrete partition
block with a source and no `mode:` line. -/
theorem C10_partition_default_mode_import_witness :
    ({ name := "P", mode := "import", source := "Sql.Database(\"s\")" } : PartitionR).mode
      = "import" :=
  C10_partition_default_mode_import
    ["partition P", "\tsource = Sql.Database(\"s\")"] 0 1
    { name := "P", mode := "import", source := "Sql.Database(\"s\")" }
    (by decide) (by decide) (by rfl) (fun i h1 h2 => by omega)

/-! ## Claim C9 — `annotation Description` lines are dropped from measures -/

/-- `measureStep` never touches the annotation list. -/
theorem measureStep_annotations (line : String) (m : MeasureR) :
    (measureStep line m).annotations = m.annotations := by
  simp only [measureStep]
  split_ifs <;> rfl

/-- The raw annotation stream of a measure block: the same loop as
`measureGo`, collecting every annotation it parses, unfiltered and in order. -/
def measureAnnotsGo (pr : PyPrims) (lines : List String) :
    Nat → Nat → Option Nat → Except PErr (List Annot × Nat)
  | 0, pos, _ => .ok ([], pos)
  | fuel + 1, pos, base =>
    if pos < lines.length then
      let line := lines.getD pos ""
      if isBlank line then measureAnnotsGo pr lines fuel (pos + 1) base
      else
        let indent := indentPS line
        let lc := pyStrip line
        let exit : Bool :=
          match base with
          | none => false
          | some b => indent ≤ b && !starts lc "annotation"
        if exit then .ok ([], pos)
        else
          let base' := match base with | none => some indent | some b => some b
          if starts lc "annotation " then
            match parseAnnot pr lines pos with
            | .error e => .error e
            | .ok (a, p') =>
              match measureAnnotsGo pr lines fuel p' base' with
              | .error e => .error e
              | .ok (as, e) => .ok (a :: as, e)
          else measureAnnotsGo pr lines fuel (pos + 1) base'
    else .ok ([], pos)

/-- The measure property loop keeps exactly the non-`Description` annotations
of its raw annotation stream, in order. -/
theorem measureGo_annots (pr : PyPrims) (lines : List String) :
    ∀ fuel pos base m m' e,
      measureGo pr lines fuel pos base m = .ok (m', e) →
      ∃ as, measureAnnotsGo pr lines fuel pos base = .ok (as, e) ∧
        m'.annotations = m.annotations ++ as.filter (fun a => a.name != "Description") := by
  intro fuel
  induction fuel with
  | zero =>
    intro pos base m m' e hok
    simp only [measureGo, Except.ok.injEq, Prod.mk.injEq] at hok
    exact ⟨[], by simp [measureAnnotsGo, hok.2], by simp [← hok.1]⟩
  | succ fuel ih =>
    intro pos base m m' e hok
    by_cases hpos : pos < lines.length
    case neg =>
      rw [show measureGo pr lines (fuel + 1) pos base m = .ok (m, pos) from by
        simp only [measureGo]; rw [if_neg hpos]] at hok
      simp only [Except.ok.injEq, Prod.mk.injEq] at hok
      exact ⟨[], by
        rw [show measureAnnotsGo pr lines (fuel + 1) pos base = .ok ([], pos) from by
          simp only [measureAnnotsGo]; rw [if_neg hpos]]
        simp [hok.2], by simp [← hok.1]⟩
    by_cases hblank : isBlank (lines.getD pos "") = true
    · rw [show measureGo pr lines (fuel + 1) pos base m
          = measureGo pr lines fuel (pos + 1) base m from by
        simp only [measureGo]; rw [if_pos hpos, if_pos hblank]] at hok
      obtain ⟨as, h1, h2⟩ := ih (pos + 1) base m m' e hok
      refine ⟨as, ?_, h2⟩
      rw [show measureAnnotsGo pr lines (fuel + 1) pos base
          = measureAnnotsGo pr lines fuel (pos + 1) base from by
        simp only [measureAnnotsGo]; rw [if_pos hpos, if_pos hblank]]
      exact h1
    · cases base with
      | none =>
        by_cases hann : starts (pyStrip (lines.getD pos "")) "annotation " = true
        · cases hA : parseAnnot pr lines pos with
          | error err =>
            rw [show measureGo pr lines (fuel + 1) pos none m = .error err from by
              simp only [measureGo]
              rw [if_pos hpos, if_neg hblank, if_neg Bool.false_ne_true, if_pos hann, hA]]
              at hok
            exact absurd hok (by simp)
          | ok ap =>
            obtain ⟨a, p'⟩ := ap
            by_cases hne : a.name ≠ "Description"
            · rw [show measureGo pr lines (fuel + 1) pos none m
                  = measureGo pr lines fuel p' (some (indentPS (lines.getD pos "")))
                      { m with annotations := m.annotations ++ [a] } from by
                simp only [measureGo]
                rw [if_pos hpos, if_neg hblank, if_neg Bool.false_ne_true, if_pos hann, hA]
                simp only [if_pos hne]] at hok
              obtain ⟨as, h1, h2⟩ := ih p' _ _ m' e hok
              refine ⟨a :: as, ?_, ?_⟩
              · rw [show measureAnnotsGo pr lines (fuel + 1) pos none
                    = match measureAnnotsGo pr lines fuel p'
                        (some (indentPS (lines.getD pos ""))) with
                      | .error er => .error er
                      | .ok (as2, e2) => .ok (a :: as2, e2) from by
                  simp only [measureAnnotsGo]
                  rw [if_pos hpos, if_neg hblank, if_neg Bool.false_ne_true, if_pos hann, hA]]
                rw [h1]
              · have hb : (a.name != "Description") = true := by
                  simpa [bne] using hne
                simp [h2, hb, List.filter_cons, List.append_assoc]
            · rw [show measureGo pr lines (fuel + 1) pos none m
                  = measureGo pr lines fuel p' (some (indentPS (lines.getD pos ""))) m from by
                simp only [measureGo]
                rw [if_pos hpos, if_neg hblank, if_neg Bool.false_ne_true, if_pos hann, hA]
                simp only [if_neg hne]] at hok
              obtain ⟨as, h1, h2⟩ := ih p' _ _ m' e hok
              refine ⟨a :: as, ?_, ?_⟩
              · rw [show measureAnnotsGo pr lines (fuel + 1) pos none
                    = match measureAnnotsGo pr lines fuel p'
                        (some (indentPS (lines.getD pos ""))) with
                      | .error er => .error er
                      | .ok (as2, e2) => .ok (a :: as2, e2) from by
                  simp only [measureAnnotsGo]
                  rw [if_pos hpos, if_neg hblank, if_neg Bool.false_ne_true, if_pos hann, hA]]
                rw [h1]
              · have hb : (a.name != "Description") = false := by
                  simpa [bne] using hne
                simp [h2, hb, List.filter_cons]
        · rw [show measureGo pr lines (fuel + 1) pos none m
              = measureGo pr lines fuel (pos + 1) (some (indentPS (lines.getD pos "")))
                  (measureStep (lines.getD pos "") m) from by
            simp only [measureGo]
            rw [if_pos hpos, if_neg hblank, if_neg Bool.false_ne_true, if_neg hann]] at hok
          obtain ⟨as, h1, h2⟩ := ih (pos + 1) _ _ m' e hok
          refine ⟨as, ?_, ?_⟩
          · rw [show measureAnnotsGo pr lines (fuel + 1) pos none
                = measureAnnotsGo pr lines fuel (pos + 1)
                    (some (indentPS (lines.getD pos ""))) from by
              simp only [measureAnnotsGo]
              rw [if_pos hpos, if_neg hblank, if_neg Bool.false_ne_true, if_neg hann]]
            exact h1
          · rw [h2, measureStep_annotations]
      | some b =>
        by_cases hexit : (indentPS (lines.getD pos "") ≤ b &&
            !starts (pyStrip (lines.getD pos "")) "annotation") = true
        · rw [show measureGo pr lines (fuel + 1) pos (some b) m = .ok (m, pos) from by
            simp only [measureGo]; rw [if_pos hpos, if_neg hblank, if_pos hexit]] at hok
          simp only [Except.ok.injEq, Prod.mk.injEq] at hok
          refine ⟨[], ?_, by simp [← hok.1]⟩
          rw [show measureAnnotsGo pr lines (fuel + 1) pos (some b) = .ok ([], pos) from by
            simp only [measureAnnotsGo]; rw [if_pos hpos, if_neg hblank, if_pos hexit]]
          simp [hok.2]
        · by_cases hann : starts (pyStrip (lines.getD pos "")) "annotation " = true
          · cases hA : parseAnnot pr lines pos with
            | error err =>
              rw [show measureGo pr lines (fuel + 1) pos (some b) m = .error err from by
                simp only [measureGo]
                rw [if_pos hpos, if_neg hblank, if_neg hexit, if_pos hann, hA]] at hok
              exact absurd hok (by simp)
            | ok ap =>
              obtain ⟨a, p'⟩ := ap
              by_cases hne : a.name ≠ "Description"
              · rw [show measureGo pr lines (fuel + 1) pos (some b) m
                    = measureGo pr lines fuel p' (some b)
                        { m with annotations := m.annotations ++ [a] } from by
                  simp only [measureGo]
                  rw [if_pos hpos, if_neg hblank, if_neg hexit, if_pos hann, hA]
                  simp only [if_pos hne]] at hok
                obtain ⟨as, h1, h2⟩ := ih p' _ _ m' e hok
                refine ⟨a :: as, ?_, ?_⟩
                · rw [show measureAnnotsGo pr lines (fuel + 1) pos (some b)
                      = match measureAnnotsGo pr lines fuel p' (some b) with
                        | .error er => .error er
                        | .ok (as2, e2) => .ok (a :: as2, e2) from by
                    simp only [measureAnnotsGo]
                    rw [if_pos hpos, if_neg hblank, if_neg hexit, if_pos hann, hA]]
                  rw [h1]
                · have hb : (a.name != "Description") = true := by
                    simpa [bne] using hne
                  simp [h2, hb, List.filter_cons, List.append_assoc]
              · rw [show measureGo pr lines (fuel + 1) pos (some b) m
                    = measureGo pr lines fuel p' (some b) m from by
                  simp only [measureGo]
                  rw [if_pos hpos, if_neg hblank, if_neg hexit, if_pos hann, hA]
                  simp only [if_neg hne]] at hok
                obtain ⟨as, h1, h2⟩ := ih p' _ _ m' e hok
                refine ⟨a :: as, ?_, ?_⟩
                · rw [show measureAnnotsGo pr lines (fuel + 1) pos (some b)
                      = match measureAnnotsGo pr lines fuel p' (some b) with
                        | .error er => .error er
                        | .ok (as2, e2) => .ok (a :: as2, e2) from by
                    simp only [measureAnnotsGo]
                    rw [if_pos hpos, if_neg hblank, if_neg hexit, if_pos hann, hA]]
                  rw [h1]
                · have hb : (a.name != "Description") = false := by
                    simpa [bne] using hne
                  simp [h2, hb, List.filter_cons]
          · rw [show measureGo pr lines (fuel + 1) pos (some b) m
                = measureGo pr lines fuel (pos + 1) (some b)
                    (measureStep (lines.getD pos "") m) from by
              simp only [measureGo]
              rw [if_pos hpos, if_neg hblank, if_neg hexit, if_neg hann]] at hok
            obtain ⟨as, h1, h2⟩ := ih (pos + 1) _ _ m' e hok
            refine ⟨as, ?_, ?_⟩
            · rw [show measureAnnotsGo pr lines (fuel + 1) pos (some b)
                  = measureAnnotsGo pr lines fuel (pos + 1) (some b) from by
                simp only [measureAnnotsGo]
                rw [if_pos hpos, if_neg hblank, if_neg hexit, if_neg hann]]
              exact h1
            · rw [h2, measureStep_annotations]

/-- C9: for every measure block that parses to a record, an `annotation` line
whose name is exactly `Description` is silently omitted from the record's
annotation list, and all other annotations are kept in their original order:
the record's list is exactly the non-`Description` filter of the raw
annotation stream of the block. -/
theorem C9_description_annotations_filtered (pr : PyPrims) (lines : List String)
    (pos endPos : Nat) (m : MeasureR)
    (hok : parseMeasure pr lines pos = .ok (some m, endPos)) :
    ∃ as, measureAnnotsGo pr lines (lines.length + 1) (pos + 1) none = .ok (as, endPos) ∧
      m.annotations = as.filter (fun a => a.name != "Description") := by
  simp only [parseMeasure] at hok
  cases hm : eqMatch true "measure" (pyStrip (lines.getD pos "")) with
  | none => rw [hm] at hok; exact absurd hok (by simp)
  | some gg =>
    obtain ⟨g1, g2⟩ := gg
    rw [hm] at hok
    simp only at hok
    split at hok
    · exact absurd hok (by simp)
    · cases hgo : measureGo pr lines (lines.length + 1) (pos + 1) none
          { name := pyStrip g1, expression := pyStrip g2 } with
      | error err => rw [hgo] at hok; exact absurd hok (by simp)
      | ok me =>
        obtain ⟨m0, e0⟩ := me
        rw [hgo] at hok
        simp only [Except.ok.injEq, Prod.mk.injEq, Option.some.injEq] at hok
        obtain ⟨hm0, he0⟩ := hok
        obtain ⟨as, h1, h2⟩ := measureGo_annots pr lines (lines.length + 1) (pos + 1) none
          _ _ _ hgo
        exact ⟨as, by rw [h1, he0], by rw [← hm0, h2]; simp⟩

/-- Witness for `C9_description_annotations_filtered` on a concrete measure
with one `Description` annotation and one other annotation. -/
theorem C9_description_annotations_filtered_witness :
    ∃ as, measureAnnotsGo trivPrims
        ["measure M = 1", "\tannotation Description = \"o\"", "\tannotation A = \"k\""]
        (3 + 1) (0 + 1) none = .ok (as, 3) ∧
      ({ name := "M", expression := "1",
         annotations := [{ name := "A", value := .str "k" }] } : MeasureR).annotations
        = as.filter (fun a => a.name != "Description") :=
  C9_description_annotations_filtered trivPrims
    ["measure M = 1", "\tannotation Description = \"o\"", "\tannotation A = \"k\""] 0 3
    { name := "M", expression := "1", annotations := [{ name := "A", value := .str "k" }] }
    (by rfl)

/-! ## Claim C3 — malformed-measure recovery (corrected)

`_skip_measure_properties` takes the *first following non-blank line* as its
`base_indent` reference and consumes it unconditionally — even when that line
is a sibling at the same indentation.  A well-formed measure immediately
following a malformed one is therefore swallowed (counterexample below).
What does hold: no record, no error, and the skip ends exactly before the
first subsequent non-blank line indented at most as much as that first
consumed line. -/

/-- Index of the first non-blank line of a list. -/
def firstNonBlankIdx : List String → Option Nat
  | [] => none
  | l :: ls => if nonBlank l then some 0 else (firstNonBlankIdx ls).map (· + 1)

/-- First position `≥ pos` holding a non-blank line. -/
def firstNonBlankFrom (lines : List String) (pos : Nat) : Option Nat :=
  (firstNonBlankIdx (lines.drop pos)).map (· + pos)

/-- Index of the first line that is non-blank with indentation `≤ thr`. -/
def firstExitIdx (thr : Nat) : List String → Option Nat
  | [] => none
  | l :: ls =>
    if nonBlank l && indentPS l ≤ thr then some 0 else (firstExitIdx thr ls).map (· + 1)

/-- First position `≥ pos` holding a non-blank line with indentation `≤ thr`,
or end of file. -/
def firstExitFrom (lines : List String) (thr pos : Nat) : Nat :=
  match firstExitIdx thr (lines.drop pos) with
  | some k => pos + k
  | none => lines.length

/-- The position `_skip_measure_properties` stops at, characterized: the
first non-blank line after the malformed measure line is consumed (whatever
its indentation), and the skip then stops before the first subsequent
non-blank line whose indentation is at most that consumed line's. -/
def skipSpecPos (lines : List String) (pos : Nat) : Nat :=
  match firstNonBlankFrom lines pos with
  | none => lines.length
  | some f => firstExitFrom lines (indentPS (lines.getD f "")) (f + 1)

/-- A `measure` line the parser treats as malformed: the regex does not match,
or the name contains a space and is not quoted. -/
def malformedMeasureLine (s : String) : Bool :=
  match eqMatch true "measure" s with
  | none => true
  | some (g1, _) =>
    let nm := pyStrip g1
    containsSub nm " " &&
      !((starts nm "'" && endsw nm "'") || (starts nm "\"" && endsw nm "\""))

/-- `nonBlank` is the negation of `isBlank`. -/
theorem nonBlank_eq (s : String) : nonBlank s = !isBlank s := by
  simp [nonBlank, isBlank, decide_not]

/-- Dropping at an in-range position exposes the head line. -/
theorem drop_cons_getD (lines : List String) (pos : Nat) (h : pos < lines.length) :
    lines.drop pos = lines.getD pos "" :: lines.drop (pos + 1) := by
  rw [List.getD_eq_getElem lines "" h]
  exact List.drop_eq_getElem_cons h

/-- `firstExitFrom` step at a line that does not exit. -/
theorem firstExitFrom_step_no (lines : List String) (thr pos : Nat)
    (h : pos < lines.length)
    (hno : (nonBlank (lines.getD pos "") && indentPS (lines.getD pos "") ≤ thr) = false) :
    firstExitFrom lines thr pos = firstExitFrom lines thr (pos + 1) := by
  unfold firstExitFrom
  rw [drop_cons_getD lines pos h]
  simp only [firstExitIdx, hno, Bool.false_eq_true, if_false, reduceIte]
  cases firstExitIdx thr (lines.drop (pos + 1)) <;> simp <;> omega

/-- `firstExitFrom` at an exiting line. -/
theorem firstExitFrom_step_yes (lines : List String) (thr pos : Nat)
    (h : pos < lines.length)
    (hyes : (nonBlank (lines.getD pos "") && indentPS (lines.getD pos "") ≤ thr) = true) :
    firstExitFrom lines thr pos = pos := by
  unfold firstExitFrom
  rw [drop_cons_getD lines pos h]
  simp only [firstExitIdx, hyes, if_true, reduceIte]
  omega

/-- `firstExitFrom` at end of file. -/
theorem firstExitFrom_end (lines : List String) (thr pos : Nat)
    (h : lines.length ≤ pos) :
    firstExitFrom lines thr pos = lines.length := by
  unfold firstExitFrom
  rw [List.drop_eq_nil_of_le h]
  simp [firstExitIdx]

/-- The `some`-phase of the skip loop computes `firstExitFrom`. -/
theorem skipMeasureGo_some (lines : List String) (b : Nat) :
    ∀ fuel pos, lines.length ≤ fuel + pos → pos ≤ lines.length →
      skipMeasureGo lines fuel pos (some b) = firstExitFrom lines b pos := by
  intro fuel
  induction fuel with
  | zero =>
    intro pos h1 h2
    have : pos = lines.length := by omega
    simp only [skipMeasureGo, this]
    exact (firstExitFrom_end lines b lines.length (le_refl _)).symm
  | succ fuel ih =>
    intro pos h1 h2
    by_cases hpos : pos < lines.length
    case neg =>
      have : pos = lines.length := by omega
      rw [show skipMeasureGo lines (fuel + 1) pos (some b) = pos from by
        simp only [skipMeasureGo]; rw [if_neg hpos]]
      rw [this]
      exact (firstExitFrom_end lines b lines.length (le_refl _)).symm
    by_cases hblank : isBlank (lines.getD pos "") = true
    · rw [show skipMeasureGo lines (fuel + 1) pos (some b)
          = skipMeasureGo lines fuel (pos + 1) (some b) from by
        simp only [skipMeasureGo]; rw [if_pos hpos, if_pos hblank]]
      rw [ih (pos + 1) (by omega) (by omega)]
      refine (firstExitFrom_step_no lines b pos hpos ?_).symm
      rw [nonBlank_eq, hblank]
      rfl
    · have hnb : nonBlank (lines.getD pos "") = true := by
        rw [nonBlank_eq, Bool.eq_false_iff.mpr hblank]
        rfl
      by_cases hle : indentPS (lines.getD pos "") ≤ b
      · rw [show skipMeasureGo lines (fuel + 1) pos (some b) = pos from by
          simp only [skipMeasureGo]; rw [if_pos hpos, if_neg hblank, if_pos hle]]
        exact (firstExitFrom_step_yes lines b pos hpos (by
          rw [hnb, decide_eq_true hle]; rfl)).symm
      · rw [show skipMeasureGo lines (fuel + 1) pos (some b)
            = skipMeasureGo lines fuel (pos + 1) (some b) from by
          simp only [skipMeasureGo]; rw [if_pos hpos, if_neg hblank, if_neg hle]]
        rw [ih (pos + 1) (by omega) (by omega)]
        refine (firstExitFrom_step_no lines b pos hpos ?_).symm
        rw [hnb, decide_eq_false hle]
        rfl

/-- The full skip loop computes `skipSpecPos`. -/
theorem skipMeasureGo_none (lines : List String) :
    ∀ fuel pos, lines.length ≤ fuel + pos → pos ≤ lines.length →
      skipMeasureGo lines fuel pos none = skipSpecPos lines pos := by
  intro fuel
  induction fuel with
  | zero =>
    intro pos h1 h2
    have hp : pos = lines.length := by omega
    simp only [skipMeasureGo, hp, skipSpecPos, firstNonBlankFrom,
      List.drop_length, firstNonBlankIdx, Option.map_none']
  | succ fuel ih =>
    intro pos h1 h2
    by_cases hpos : pos < lines.length
    case neg =>
      have hp : pos = lines.length := by omega
      rw [show skipMeasureGo lines (fuel + 1) pos none = pos from by
        simp only [skipMeasureGo]; rw [if_neg hpos]]
      simp only [hp, skipSpecPos, firstNonBlankFrom, List.drop_length, firstNonBlankIdx,
        Option.map_none']
    by_cases hblank : isBlank (lines.getD pos "") = true
    · rw [show skipMeasureGo lines (fuel + 1) pos none
          = skipMeasureGo lines fuel (pos + 1) none from by
        simp only [skipMeasureGo]; rw [if_pos hpos, if_pos hblank]]
      rw [ih (pos + 1) (by omega) (by omega)]
      have hnb : nonBlank (lines.getD pos "") = false := by
        rw [nonBlank_eq, hblank]
        rfl
      unfold skipSpecPos firstNonBlankFrom
      rw [drop_cons_getD lines pos hpos]
      simp only [firstNonBlankIdx, hnb, Bool.false_eq_true, if_false, reduceIte]
      cases hf : firstNonBlankIdx (lines.drop (pos + 1)) with
      | none => simp
      | some k =>
        simp only [Option.map_map, Option.map_some']
        have : k + 1 + pos = k + (pos + 1) := by omega
        rw [this]
    · have hnb : nonBlank (lines.getD pos "") = true := by
        rw [nonBlank_eq, Bool.eq_false_iff.mpr hblank]
        rfl
      rw [show skipMeasureGo lines (fuel + 1) pos none
          = skipMeasureGo lines fuel (pos + 1) (some (indentPS (lines.getD pos ""))) from by
        simp only [skipMeasureGo]; rw [if_pos hpos, if_neg hblank]]
      rw [skipMeasureGo_some lines (indentPS (lines.getD pos "")) fuel (pos + 1)
        (by omega) (by omega)]
      unfold skipSpecPos firstNonBlankFrom
      rw [drop_cons_getD lines pos hpos]
      simp only [firstNonBlankIdx, hnb, if_true, reduceIte, Option.map_some']
      simp

/-- The text of the spec's concrete recovery scenario: a malformed measure
with property lines, then a well-formed sibling measure. -/
def c3scenario : String :=
  "table Fact\n\tmeasure Bad Name = SUM(Fact[X])\n\t\tlineageTag: aaa\n\t\tformatString: abc\n\tmeasure Good = SUM(Fact[Y])\n\t\tlineageTag: bbb\n"

/-- Parse result of the scenario: no error, zero records for the bad line,
and the sibling measure `Good` parsed. -/
def c3goodMeasure : MeasureR :=
  { name := "Good", expression := "SUM(Fact[Y])", lineage_tag := "bbb" }

def c3scenarioDoc : DocR :=
  { tables := [{ name := "Fact", measures := [c3goodMeasure] }] }

/-- C3, amended: a malformed `measure` line (regex mismatch, or unquoted name
with a space) yields no Measure record and no error; the parser advances past
the line and `_skip_measure_properties` stops exactly at `skipSpecPos`: the
first following non-blank line is consumed unconditionally, then the skip
stops before the first subsequent non-blank line indented at most as much as
that consumed line.  In the spec's concrete scenario (property lines between
the malformed and the well-formed measure) the sibling measure is still
parsed, with zero records for the bad line and zero errors. -/
theorem C3_malformed_measure_skip (pr : PyPrims) (lines : List String) (pos : Nat)
    (hpos : pos + 1 ≤ lines.length)
    (hbad : malformedMeasureLine (pyStrip (lines.getD pos "")) = true) :
    parseMeasure pr lines pos = .ok (none, skipSpecPos lines (pos + 1)) ∧
    parseFile trivPrims c3scenario = .ok c3scenarioDoc := by
  refine ⟨?_, by rfl⟩
  have hskip : skipMeasureProps lines (pos + 1) = skipSpecPos lines (pos + 1) := by
    unfold skipMeasureProps
    exact skipMeasureGo_none lines (lines.length + 1) (pos + 1) (by omega) hpos
  unfold malformedMeasureLine at hbad
  simp only [parseMeasure]
  cases hm : eqMatch true "measure" (pyStrip (lines.getD pos "")) with
  | none => rw [hskip]
  | some gg =>
    obtain ⟨g1, g2⟩ := gg
    rw [hm] at hbad
    simp only at hbad ⊢
    rw [if_pos hbad, hskip]

/-- C3, counterexample to the claim as stated: when the malformed measure has
no property lines, the skip consumes the *sibling* well-formed measure line
(`measure Good = 1 + 1`), so the later well-formed measure is **not** parsed:
the table ends with zero measures — even though that very line parses to a
valid Measure record on its own. -/
theorem C3_sibling_measure_swallowed :
    parseFile trivPrims "table T\n\tmeasure Bad Name = SUM(Fact[X])\n\tmeasure Good = 1 + 1"
      = .ok { tables := [{ name := "T" }] } ∧
    parseMeasure trivPrims
        (splitLines "table T\n\tmeasure Bad Name = SUM(Fact[X])\n\tmeasure Good = 1 + 1") 2
      = .ok (some { name := "Good", expression := "1 + 1" }, 3) :=
  ⟨rfl, rfl⟩

/-- Witness for `C3_malformed_measure_skip` at a concrete malformed line. -/
theorem C3_malformed_measure_skip_witness :
    parseMeasure trivPrims ["measure Bad Name = X", "\tlineageTag: q"] 0
        = .ok (none, skipSpecPos ["measure Bad Name = X", "\tlineageTag: q"] (0 + 1)) ∧
      parseFile trivPrims c3scenario = .ok c3scenarioDoc :=
  C3_malformed_measure_skip trivPrims ["measure Bad Name = X", "\tlineageTag: q"] 0
    (by decide) (by decide)

/-! ## Claim C5 — update/delete are no-ops for an absent element -/

/-- `"\n".join` undoes `content.split("\n")`. -/
theorem joinLines_splitLines (s : String) : joinLines (splitLines s) = s := by
  unfold joinLines splitLines
  rw [List.map_map]
  have hmap : (String.data ∘ fun cs => (⟨cs⟩ : String)) = id := rfl
  rw [hmap, List.map_id, List.intercalate_splitOn]

/-- A line fetched in range is a line of the file. -/
theorem getD_mem (lines : List String) (pos : Nat) (h : pos < lines.length) :
    lines.getD pos "" ∈ lines := by
  rw [List.getD_eq_getElem lines "" h]
  exact List.getElem_mem h

namespace TMDLWriter

/-- When no line of the file defines the element, the update loop copies
every remaining line unchanged. -/
theorem updGo_absent (lines : List String) (ty nm : String) (upd : List (String × UVal))
    (habsent : ∀ l ∈ lines, isElementDefinition l ty nm = false) :
    ∀ fuel pos elInd done acc, lines.length ≤ fuel + pos →
      updGo lines ty nm upd fuel pos false elInd done acc = acc ++ lines.drop pos := by
  intro fuel
  induction fuel with
  | zero =>
    intro pos elInd done acc h1
    rw [show lines.drop pos = [] from List.drop_eq_nil_of_le (by omega)]
    simp [updGo]
  | succ fuel ih =>
    intro pos elInd done acc h1
    by_cases hpos : pos < lines.length
    case neg =>
      rw [show lines.drop pos = [] from List.drop_eq_nil_of_le (by omega)]
      rw [show updGo lines ty nm upd (fuel + 1) pos false elInd done acc = acc from by
        simp only [updGo]; rw [if_neg hpos]; rfl]
      simp
    · have hel : isElementDefinition (lines.getD pos "") ty nm = false :=
        habsent _ (getD_mem lines pos hpos)
      rw [show updGo lines ty nm upd (fuel + 1) pos false elInd done acc
          = updGo lines ty nm upd fuel (pos + 1) false elInd done (acc ++ [lines.getD pos ""])
          from by
        simp only [updGo]
        rw [if_pos hpos, if_neg (by rw [hel]; exact Bool.false_ne_true),
          if_neg Bool.false_ne_true]]
      rw [ih (pos + 1) elInd done _ (by omega)]
      rw [drop_cons_getD lines pos hpos]
      simp

/-- When no line of the file defines the element, the delete loop copies
every remaining line unchanged (from the clean state). -/
theorem delGo_absent (lines : List String) (ty nm : String)
    (habsent : ∀ l ∈ lines, isElementDefinition l ty nm = false) :
    ∀ fuel pos elInd di acc, lines.length ≤ fuel + pos →
      delGo lines ty nm fuel pos false elInd false false di acc = acc ++ lines.drop pos := by
  intro fuel
  induction fuel with
  | zero =>
    intro pos elInd di acc h1
    rw [show lines.drop pos = [] from List.drop_eq_nil_of_le (by omega)]
    simp [delGo]
  | succ fuel ih =>
    intro pos elInd di acc h1
    by_cases hpos : pos < lines.length
    case neg =>
      rw [show lines.drop pos = [] from List.drop_eq_nil_of_le (by omega)]
      rw [show delGo lines ty nm (fuel + 1) pos false elInd false false di acc = acc from by
        simp only [delGo]; rw [if_neg hpos]]
      simp
    · have hel : isElementDefinition (lines.getD pos "") ty nm = false :=
        habsent _ (getD_mem lines pos hpos)
      have htrig : (!false && decide (pos + 1 < lines.length) &&
          isElementDefinition (lines.getD (pos + 1) "") ty nm &&
          starts (pyStrip (lines.getD pos "")) "///") = false := by
        by_cases hnext : pos + 1 < lines.length
        · have h2 : isElementDefinition (lines.getD (pos + 1) "") ty nm = false :=
            habsent _ (getD_mem lines (pos + 1) hnext)
          rw [h2]
          simp only [Bool.and_false, Bool.false_and]
        · rw [show (decide (pos + 1 < lines.length)) = false from by simp [hnext]]
          simp only [Bool.and_false, Bool.false_and]
      rw [show delGo lines ty nm (fuel + 1) pos false elInd false false di acc
          = delGo lines ty nm fuel (pos + 1) false elInd false false di
              (acc ++ [lines.getD pos ""]) from by
        simp only [delGo]
        rw [if_pos hpos, if_neg (by rw [htrig]; exact Bool.false_ne_true),
          if_neg (by simp : ¬((false && starts (pyStrip (lines.getD pos "")) "///" &&
            (indentTab (lines.getD pos "") == di)) = true)),
          if_neg (by rw [hel]; exact Bool.false_ne_true),
          if_neg Bool.false_ne_true,
          if_neg (by simp : ¬((false && isBlank (lines.getD pos "")) = true))]]
      rw [ih (pos + 1) elInd di _ (by omega)]
      rw [drop_cons_getD lines pos hpos]
      simp

/-- C5: when no line of the text defines an element of the given type and
name, `update_element` and `delete_element` return the input text unchanged —
never a partially edited buffer. -/
theorem C5_update_delete_noop_when_absent (content ty nm : String)
    (upd : List (String × UVal))
    (habsent : ∀ l ∈ splitLines content, isElementDefinition l ty nm = false) :
    updateElement content ty nm upd = content ∧ deleteElement content ty nm = content := by
  constructor
  · unfold updateElement updateElementLines
    rw [updGo_absent (splitLines content) ty nm upd habsent _ 0 0 [] [] (by omega)]
    simp only [List.drop_zero, List.nil_append]
    exact joinLines_splitLines content
  · unfold deleteElement deleteElementLines
    rw [delGo_absent (splitLines content) ty nm habsent _ 0 0 0 [] (by omega)]
    simp only [List.drop_zero, List.nil_append]
    exact joinLines_splitLines content

/-- Witness for `C5_update_delete_noop_when_absent` on a concrete text that
contains measure `M` but not the requested measure `Zed`. -/
theorem C5_update_delete_noop_when_absent_witness :
    updateElement "table T\n\tmeasure M = 1\n\t\tlineageTag: x" "measure" "Zed"
        [("format_string", .str "0.0")] = "table T\n\tmeasure M = 1\n\t\tlineageTag: x" ∧
      deleteElement "table T\n\tmeasure M = 1\n\t\tlineageTag: x" "measure" "Zed"
        = "table T\n\tmeasure M = 1\n\t\tlineageTag: x" :=
  C5_update_delete_noop_when_absent "table T\n\tmeasure M = 1\n\t\tlineageTag: x"
    "measure" "Zed" [("format_string", .str "0.0")] (by decide)

/-- Spec-side formulation of rule (1) of the add insertion order: the index of
the keyword line of the last block introduced by the same keyword anywhere in
the file (greatest line index whose stripped text starts with `ty ++ " "`). -/
def lastKwLineIdx (lines : List String) (ty : String) : Option Nat :=
  (List.range lines.length).reverse.find?
    (fun i => starts (pyStrip (lines.getD i "")) (ty ++ " "))

/-- The first position after the end of the block whose keyword line is `i`:
the first subsequent non-blank line with indentation at most the keyword
line's, or end-of-file. -/
def blockEndW (lines : List String) (i : Nat) : Nat :=
  scanEndW lines (indentTab (lines.getD i "")) (lines.length + 1) (i + 1)

/-- Spec-side insertion point: (1) immediately after the end of the last
same-keyword block; (2) keyword-specific anchor (measure before the first
`column `/`partition ` line, column before the first `partition ` line);
(3) three lines before end-of-file. -/
def insertionPointSpec (lines : List String) (ty : String) : Nat :=
  match lastKwLineIdx lines ty with
  | some i => blockEndW lines i
  | none =>
    if ty = "measure" then
      match lines.findIdx? (fun l =>
          starts (pyStrip l) "column " || starts (pyStrip l) "partition ") with
      | some i => i
      | none => lines.length - 3
    else if ty = "column" then
      match lines.findIdx? (fun l => starts (pyStrip l) "partition ") with
      | some i => i
      | none => lines.length - 3
    else lines.length - 3

theorem scanEndW_ge (lines : List String) (ei : Nat) :
    ∀ fuel pos, pos ≤ scanEndW lines ei fuel pos := by
  intro fuel
  induction fuel with
  | zero => intro pos; simp [scanEndW]
  | succ n ih =>
    intro pos
    simp only [scanEndW]
    by_cases hpos : pos < lines.length
    · rw [if_pos hpos]
      by_cases hc : (nonBlank (lines.getD pos "") &&
          decide (indentTab (lines.getD pos "") ≤ ei)) = true
      · rw [if_pos hc]
      · rw [if_neg hc]
        exact le_trans (by omega) (ih (pos + 1))
    · rw [if_neg hpos]

theorem scanEndW_le (lines : List String) (ei : Nat) :
    ∀ fuel pos, lines.length ≤ fuel + pos → pos ≤ lines.length →
      scanEndW lines ei fuel pos ≤ lines.length := by
  intro fuel
  induction fuel with
  | zero => intro pos _ hp; simpa [scanEndW] using hp
  | succ n ih =>
    intro pos hfuel hp
    simp only [scanEndW]
    by_cases hpos : pos < lines.length
    · rw [if_pos hpos]
      by_cases hc : (nonBlank (lines.getD pos "") &&
          decide (indentTab (lines.getD pos "") ≤ ei)) = true
      · rw [if_pos hc]; omega
      · rw [if_neg hc]
        exact ih (pos + 1) (by omega) (by omega)
    · rw [if_neg hpos]; exact hp

theorem range_drop_cons (n pos : Nat) (h : pos < n) :
    (List.range n).drop pos = pos :: (List.range n).drop (pos + 1) := by
  have hl : pos < (List.range n).length := by simpa using h
  rw [List.drop_eq_getElem_cons hl, List.getElem_range]

/-- The running-maximum loop of `_find_insertion_point` computes the block end
of the last same-keyword line at or after `pos` (or returns the accumulator
when there is none). -/
theorem fipGo_eq_lastFrom (lines : List String) (ty : String) :
    ∀ fuel pos acc, lines.length ≤ fuel + pos →
      fipGo lines ty fuel pos acc =
        match ((List.range lines.length).drop pos).reverse.find?
            (fun i => starts (pyStrip (lines.getD i "")) (ty ++ " ")) with
        | some i => some (blockEndW lines i - 1)
        | none => acc := by
  intro fuel
  induction fuel with
  | zero =>
    intro pos acc hle
    rw [show (List.range lines.length).drop pos = [] from
      List.drop_eq_nil_of_le (by simpa using hle)]
    simp [fipGo]
  | succ n ih =>
    intro pos acc hle
    by_cases hpos : pos < lines.length
    · rw [range_drop_cons lines.length pos hpos, List.reverse_cons, List.find?_append]
      simp only [fipGo]
      rw [if_pos hpos]
      by_cases hkw : starts (pyStrip (lines.getD pos "")) (ty ++ " ") = true
      · rw [if_pos hkw, ih (pos + 1) _ (by omega)]
        rw [show List.find? (fun i => starts (pyStrip (lines.getD i "")) (ty ++ " "))
            [pos] = some pos from List.find?_cons_of_pos [] hkw]
        cases hfind : ((List.range lines.length).drop (pos + 1)).reverse.find?
            (fun i => starts (pyStrip (lines.getD i "")) (ty ++ " ")) with
        | some i => rfl
        | none => rfl
      · rw [if_neg hkw, ih (pos + 1) _ (by omega)]
        rw [show List.find? (fun i => starts (pyStrip (lines.getD i "")) (ty ++ " "))
            [pos] = none from by
          rw [List.find?_cons_of_neg [] (by simpa using hkw)]; rfl]
        rw [Option.or_none]
    · rw [show (List.range lines.length).drop pos = [] from
        List.drop_eq_nil_of_le (by simpa using le_of_not_lt hpos)]
      rw [show fipGo lines ty (n + 1) pos acc = acc from by
        simp only [fipGo]; rw [if_neg hpos]]
      simp

/-- `_find_insertion_point` realises the spec-side priority order. -/
theorem findInsertionPoint_eq_spec (lines : List String) (ty : String) :
    findInsertionPoint lines ty = insertionPointSpec lines ty := by
  unfold findInsertionPoint insertionPointSpec lastKwLineIdx
  rw [fipGo_eq_lastFrom lines ty (lines.length + 1) 0 none (by omega), List.drop_zero]
  cases hfind : (List.range lines.length).reverse.find?
      (fun i => starts (pyStrip (lines.getD i "")) (ty ++ " ")) with
  | none => rfl
  | some i =>
    have hge := scanEndW_ge lines (indentTab (lines.getD i ""))
      (lines.length + 1) (i + 1)
    simp only [blockEndW]
    omega

theorem insertionPointSpec_le (lines : List String) (ty : String) :
    insertionPointSpec lines ty ≤ lines.length := by
  cases hfind : lastKwLineIdx lines ty with
  | some i =>
    have hred : insertionPointSpec lines ty = blockEndW lines i := by
      unfold insertionPointSpec; rw [hfind]
    rw [hred]
    have hfind' : (List.range lines.length).reverse.find?
        (fun i => starts (pyStrip (lines.getD i "")) (ty ++ " ")) = some i := hfind
    have hmem : i ∈ (List.range lines.length).reverse :=
      List.mem_of_find?_eq_some hfind'
    have hi : i < lines.length := by
      rw [List.mem_reverse, List.mem_range] at hmem; exact hmem
    exact scanEndW_le lines (indentTab (lines.getD i "")) (lines.length + 1) (i + 1)
      (by omega) (by omega)
  | none =>
    have hred : insertionPointSpec lines ty =
        (if ty = "measure" then
          match lines.findIdx? (fun l =>
              starts (pyStrip l) "column " || starts (pyStrip l) "partition ") with
          | some i => i
          | none => lines.length - 3
        else if ty = "column" then
          match lines.findIdx? (fun l => starts (pyStrip l) "partition ") with
          | some i => i
          | none => lines.length - 3
        else lines.length - 3) := by
      unfold insertionPointSpec; rw [hfind]
    rw [hred]
    by_cases hm : ty = "measure"
    · rw [if_pos hm]
      cases hidx : lines.findIdx? (fun l =>
          starts (pyStrip l) "column " || starts (pyStrip l) "partition ") with
      | some i =>
        show i ≤ lines.length
        have := List.findIdx?_eq_some_iff_findIdx_eq.mp hidx
        omega
      | none =>
        show lines.length - 3 ≤ lines.length
        exact Nat.sub_le _ _
    · rw [if_neg hm]
      by_cases hc : ty = "column"
      · rw [if_pos hc]
        cases hidx : lines.findIdx? (fun l => starts (pyStrip l) "partition ") with
        | some i =>
          show i ≤ lines.length
          have := List.findIdx?_eq_some_iff_findIdx_eq.mp hidx
          omega
        | none =>
          show lines.length - 3 ≤ lines.length
          exact Nat.sub_le _ _
      · rw [if_neg hc]; exact Nat.sub_le _ _

/-- Inserting the block lines one by one at consecutive positions splices the
block into the list at position `p`. -/
theorem insertSeq_splice :
    ∀ (els acc : List String) (p : Nat), p ≤ acc.length →
      insertSeq acc p els = acc.take p ++ els ++ acc.drop p := by
  intro els
  induction els with
  | nil => intro acc p _; simp [insertSeq]
  | cons e es ih =>
    intro acc p hp
    have hlen : (pyInsert acc p e).length = acc.length + 1 := by
      simp only [pyInsert, List.length_append, List.length_take, List.length_cons,
        List.length_drop]
      omega
    have htk : (acc.take p).length = p := by
      simp only [List.length_take]; omega
    simp only [insertSeq]
    rw [ih (pyInsert acc p e) (p + 1) (by omega)]
    have hsplit : pyInsert acc p e = (acc.take p ++ [e]) ++ acc.drop p := by
      simp [pyInsert]
    have hlen2 : (acc.take p ++ [e]).length = p + 1 := by
      simp [htk]
    rw [hsplit, List.take_left' hlen2, List.drop_left' hlen2]
    simp

/-- C1: `add_element` inserts the indented block lines at the position given by
the priority order — (1) immediately after the end of the last same-keyword
block, (2) a new measure before the first `column `/`partition ` line and a new
column before the first `partition ` line, (3) three lines before end-of-file —
and appends a blank separator line exactly when the line following the
insertion point is non-blank. -/
theorem C1_add_insertion_point_and_separator (lines : List String)
    (ty defStr : String) (lvl : Nat) :
    findInsertionPoint lines ty = insertionPointSpec lines ty ∧
    addElementLines lines ty defStr lvl =
      lines.take (insertionPointSpec lines ty)
        ++ (splitLines (pyStrip defStr)).map (fun l => tabs lvl ++ l)
        ++ (if insertionPointSpec lines ty < lines.length ∧
              nonBlank (lines.getD (insertionPointSpec lines ty) "") then [""] else [])
        ++ lines.drop (insertionPointSpec lines ty) := by
  refine ⟨findInsertionPoint_eq_spec lines ty, ?_⟩
  have hple := insertionPointSpec_le lines ty
  simp only [addElementLines, findInsertionPoint_eq_spec lines ty]
  rw [insertSeq_splice ((splitLines (pyStrip defStr)).map (fun l => tabs lvl ++ l))
    lines (insertionPointSpec lines ty) hple]
  have htk : (lines.take (insertionPointSpec lines ty)).length
      = insertionPointSpec lines ty := by
    simp only [List.length_take]; omega
  have hfrontlen : (lines.take (insertionPointSpec lines ty)
      ++ (splitLines (pyStrip defStr)).map (fun l => tabs lvl ++ l)).length
      = insertionPointSpec lines ty
        + ((splitLines (pyStrip defStr)).map (fun l => tabs lvl ++ l)).length := by
    simp [htk]
  have hassoc : lines.take (insertionPointSpec lines ty)
        ++ (splitLines (pyStrip defStr)).map (fun l => tabs lvl ++ l)
        ++ lines.drop (insertionPointSpec lines ty)
      = (lines.take (insertionPointSpec lines ty)
          ++ (splitLines (pyStrip defStr)).map (fun l => tabs lvl ++ l))
        ++ lines.drop (insertionPointSpec lines ty) := by
    simp
  have hlen : (lines.take (insertionPointSpec lines ty)
      ++ (splitLines (pyStrip defStr)).map (fun l => tabs lvl ++ l)
      ++ lines.drop (insertionPointSpec lines ty)).length
      = lines.length
        + ((splitLines (pyStrip defStr)).map (fun l => tabs lvl ++ l)).length := by
    simp only [List.length_append, List.length_take, List.length_drop]
    omega
  have hget : (lines.take (insertionPointSpec lines ty)
      ++ (splitLines (pyStrip defStr)).map (fun l => tabs lvl ++ l)
      ++ lines.drop (insertionPointSpec lines ty)).getD
        (insertionPointSpec lines ty
          + ((splitLines (pyStrip defStr)).map (fun l => tabs lvl ++ l)).length) ""
      = lines.getD (insertionPointSpec lines ty) "" := by
    rw [hassoc, List.getD_eq_getElem?_getD,
      List.getElem?_append_right (le_of_eq hfrontlen), hfrontlen]
    rw [Nat.sub_self, List.getElem?_drop, Nat.add_zero, ← List.getD_eq_getElem?_getD]
  rw [hlen, hget]
  by_cases hc : insertionPointSpec lines ty < lines.length ∧
      nonBlank (lines.getD (insertionPointSpec lines ty) "")
  · rw [if_pos ⟨by omega, hc.2⟩, if_pos hc]
    have hlen2 : (lines.take (insertionPointSpec lines ty)
        ++ (splitLines (pyStrip defStr)).map (fun l => tabs lvl ++ l)).length
        = insertionPointSpec lines ty
          + ((splitLines (pyStrip defStr)).map (fun l => tabs lvl ++ l)).length :=
      hfrontlen
    simp only [pyInsert]
    rw [hassoc, List.take_left' hlen2, List.drop_left' hlen2]
    simp
  · rw [if_neg (by
      intro hcode
      exact hc ⟨by omega, hcode.2⟩), if_neg hc]
    simp

/-- Every position strictly before the result of the block-end scan fails the
exit test (non-blank with indentation at most the element's). -/
theorem scanEndW_min (lines : List String) (ei : Nat) :
    ∀ fuel pos j, pos ≤ j → j < scanEndW lines ei fuel pos →
      (nonBlank (lines.getD j "") && decide (indentTab (lines.getD j "") ≤ ei))
        = false := by
  intro fuel
  induction fuel with
  | zero =>
    intro pos j h1 h2
    simp only [scanEndW] at h2
    omega
  | succ n ih =>
    intro pos j h1 h2
    simp only [scanEndW] at h2
    by_cases hpos : pos < lines.length
    · rw [if_pos hpos] at h2
      by_cases hc : (nonBlank (lines.getD pos "") &&
          decide (indentTab (lines.getD pos "") ≤ ei)) = true
      · rw [if_pos hc] at h2; omega
      · rw [if_neg hc] at h2
        by_cases hj : j = pos
        · subst hj
          revert hc
          cases nonBlank (lines.getD j "") && decide (indentTab (lines.getD j "") ≤ ei)
          · intro _; rfl
          · intro hc; exact absurd rfl hc
        · exact ih (pos + 1) j (by omega) h2
    · rw [if_neg hpos] at h2; omega

/-- When the block-end scan stops before end-of-file, the stopping line passes
the exit test. -/
theorem scanEndW_hit (lines : List String) (ei : Nat) :
    ∀ fuel pos, lines.length ≤ fuel + pos →
      scanEndW lines ei fuel pos < lines.length →
      (nonBlank (lines.getD (scanEndW lines ei fuel pos) "") &&
        decide (indentTab (lines.getD (scanEndW lines ei fuel pos) "") ≤ ei)) = true := by
  intro fuel
  induction fuel with
  | zero =>
    intro pos h1 h2
    simp only [scanEndW] at h2
    exact absurd h2 (by omega)
  | succ n ih =>
    intro pos h1 h2
    by_cases hpos : pos < lines.length
    · by_cases hc : (nonBlank (lines.getD pos "") &&
          decide (indentTab (lines.getD pos "") ≤ ei)) = true
      · have hstep : scanEndW lines ei (n + 1) pos = pos := by
          simp only [scanEndW]; rw [if_pos hpos, if_pos hc]
        rw [hstep] at h2 ⊢
        exact hc
      · have hstep : scanEndW lines ei (n + 1) pos = scanEndW lines ei n (pos + 1) := by
          simp only [scanEndW]; rw [if_pos hpos, if_neg hc]
        rw [hstep] at h2 ⊢
        exact ih (pos + 1) (by omega) h2
    · have hstep : scanEndW lines ei (n + 1) pos = pos := by
        simp only [scanEndW]; rw [if_neg hpos]
      rw [hstep] at h2
      exact absurd h2 hpos

theorem updLookup_fs_expr (v : UVal) :
    updLookup [("format_string", v)] "expression" = none := rfl

theorem addNewProps_fs_done (lvl : Nat) (v : UVal) :
    addNewProps lvl [("format_string", v)] ["format_string"] = [] := rfl

/-- The property lookup of the update loop on the singleton `format_string`
update, for a line that does not start with `formatString:`. -/
theorem find_fs_none (s : String) (v : UVal)
    (h : starts (pyStrip s) "formatString:" = false) :
    List.find? (fun pv =>
        pv.1 != "expression" && starts (pyStrip s) (toTmdlProp pv.1 ++ ":"))
      [("format_string", v)] = none := by
  have h1 : ¬((fun (pv : String × UVal) =>
      pv.1 != "expression" && starts (pyStrip s) (toTmdlProp pv.1 ++ ":"))
      ("format_string", v) = true) := by
    show ¬(starts (pyStrip s) "formatString:" = true)
    rw [h]; exact Bool.false_ne_true
  rw [@List.find?_cons_of_neg (String × UVal)
    (fun pv => pv.1 != "expression" && starts (pyStrip s) (toTmdlProp pv.1 ++ ":"))
    ("format_string", v) [] h1]
  rfl

/-- The property lookup of the update loop on the singleton `format_string`
update, for a line that does start with `formatString:`. -/
theorem find_fs_some (s : String) (v : UVal)
    (h : starts (pyStrip s) "formatString:" = true) :
    List.find? (fun pv =>
        pv.1 != "expression" && starts (pyStrip s) (toTmdlProp pv.1 ++ ":"))
      [("format_string", v)] = some ("format_string", v) :=
  @List.find?_cons_of_pos (String × UVal)
    (fun pv => pv.1 != "expression" && starts (pyStrip s) (toTmdlProp pv.1 ++ ":"))
    ("format_string", v) [] h

/-- After the element block has been left (or was never entered), the update
loop copies every remaining line unchanged when no remaining line is an
element definition for the requested type and name. -/
theorem updGo_copy_after (lines : List String) (ty nm : String)
    (upd : List (String × UVal)) :
    ∀ fuel pos elInd done acc, lines.length ≤ fuel + pos →
      (∀ j, pos ≤ j → j < lines.length →
        isElementDefinition (lines.getD j "") ty nm = false) →
      updGo lines ty nm upd fuel pos false elInd done acc = acc ++ lines.drop pos := by
  intro fuel
  induction fuel with
  | zero =>
    intro pos elInd done acc h1 _
    rw [show lines.drop pos = [] from List.drop_eq_nil_of_le (by omega)]
    simp [updGo]
  | succ fuel ih =>
    intro pos elInd done acc h1 habs
    by_cases hpos : pos < lines.length
    case neg =>
      rw [show lines.drop pos = [] from List.drop_eq_nil_of_le (by omega)]
      rw [show updGo lines ty nm upd (fuel + 1) pos false elInd done acc = acc from by
        simp only [updGo]; rw [if_neg hpos]; rfl]
      simp
    · have hel : isElementDefinition (lines.getD pos "") ty nm = false :=
        habs pos (le_refl pos) hpos
      rw [show updGo lines ty nm upd (fuel + 1) pos false elInd done acc
          = updGo lines ty nm upd fuel (pos + 1) false elInd done
              (acc ++ [lines.getD pos ""]) from by
        simp only [updGo]
        rw [if_pos hpos, if_neg (by rw [hel]; exact Bool.false_ne_true),
          if_neg Bool.false_ne_true]]
      rw [ih (pos + 1) elInd done _ (by omega) (fun j hj1 hj2 => habs j (by omega) hj2)]
      rw [drop_cons_getD lines pos hpos]
      simp

/-- Inside the measure block, after the `formatString:` line has been replaced,
the update loop copies every remaining line unchanged, adds no new properties
on exit, and copies the rest of the file. -/
theorem updGo_after_fs (lines : List String) (nm : String) (v : UVal) (d : Nat)
    (hd : d < lines.length)
    (huniq : ∀ j, j < lines.length → j ≠ d →
      isElementDefinition (lines.getD j "") "measure" nm = false) :
    ∀ fuel pos acc, lines.length ≤ fuel + pos → d < pos →
      pos ≤ scanEndW lines (indentTab (lines.getD d "")) (lines.length + 1) (d + 1) →
      (∀ j, pos ≤ j →
        j < scanEndW lines (indentTab (lines.getD d "")) (lines.length + 1) (d + 1) →
        starts (pyStrip (lines.getD j "")) "formatString:" = false) →
      updGo lines "measure" nm [("format_string", v)] fuel pos true
          (indentTab (lines.getD d "")) ["format_string"] acc
        = acc ++ lines.drop pos := by
  intro fuel
  induction fuel with
  | zero =>
    intro pos acc h1 _ _ _
    rw [show lines.drop pos = [] from List.drop_eq_nil_of_le (by omega)]
    simp [updGo, addNewProps_fs_done]
  | succ fuel ih =>
    intro pos acc h1 hdpos hposb hnofs
    by_cases hpos : pos < lines.length
    case neg =>
      rw [show lines.drop pos = [] from List.drop_eq_nil_of_le (by omega)]
      rw [show updGo lines "measure" nm [("format_string", v)] (fuel + 1) pos true
          (indentTab (lines.getD d "")) ["format_string"] acc
          = acc ++ addNewProps (indentTab (lines.getD d "") + 1)
              [("format_string", v)] ["format_string"] from by
        simp only [updGo]; rw [if_neg hpos]; simp]
      rw [addNewProps_fs_done]
    · have hel : isElementDefinition (lines.getD pos "") "measure" nm = false :=
        huniq pos hpos (by omega)
      rcases lt_or_eq_of_le hposb with hlt | heq
      · have hcond : (nonBlank (lines.getD pos "") &&
            decide (indentTab (lines.getD pos "") ≤ indentTab (lines.getD d ""))) = false :=
          scanEndW_min lines (indentTab (lines.getD d "")) (lines.length + 1) (d + 1)
            pos (by omega) hlt
        have hfindnone := find_fs_none (lines.getD pos "") v
          (hnofs pos (le_refl pos) hlt)
        rw [show updGo lines "measure" nm [("format_string", v)] (fuel + 1) pos true
            (indentTab (lines.getD d "")) ["format_string"] acc
            = updGo lines "measure" nm [("format_string", v)] fuel (pos + 1) true
                (indentTab (lines.getD d "")) ["format_string"]
                (acc ++ [lines.getD pos ""]) from by
          simp only [updGo]
          rw [if_pos hpos, if_neg (by rw [hel]; exact Bool.false_ne_true),
            if_pos trivial,
            if_neg (by rw [hcond]; exact Bool.false_ne_true), hfindnone]]
        rw [ih (pos + 1) _ (by omega) (by omega) hlt
          (fun j hj1 hj2 => hnofs j (by omega) hj2)]
        rw [drop_cons_getD lines pos hpos]
        simp
      · have hcond : (nonBlank (lines.getD pos "") &&
            decide (indentTab (lines.getD pos "") ≤ indentTab (lines.getD d ""))) = true := by
          rw [heq]
          exact scanEndW_hit lines (indentTab (lines.getD d "")) (lines.length + 1)
            (d + 1) (by omega) (by omega)
        rw [show updGo lines "measure" nm [("format_string", v)] (fuel + 1) pos true
            (indentTab (lines.getD d "")) ["format_string"] acc
            = updGo lines "measure" nm [("format_string", v)] fuel (pos + 1) false
                (indentTab (lines.getD d "")) ["format_string"]
                ((acc ++ addNewProps (indentTab (lines.getD d "") + 1)
                    [("format_string", v)] ["format_string"]) ++ [lines.getD pos ""]) from by
          simp only [updGo]
          rw [if_pos hpos, if_neg (by rw [hel]; exact Bool.false_ne_true),
            if_pos trivial, if_pos hcond]]
        rw [updGo_copy_after lines "measure" nm [("format_string", v)] fuel (pos + 1)
          _ _ _ (by omega) (fun j hj1 hj2 => huniq j hj2 (by omega))]
        rw [addNewProps_fs_done, drop_cons_getD lines pos hpos]
        simp

/-- Inside the measure block and at or before the `formatString:` line, the
update loop copies lines unchanged until it replaces that one line. -/
theorem updGo_mid_fs (lines : List String) (nm : String) (v : UVal) (d k : Nat)
    (hd : d < lines.length)
    (huniq : ∀ j, j < lines.length → j ≠ d →
      isElementDefinition (lines.getD j "") "measure" nm = false)
    (hk1 : d < k)
    (hk2 : k < scanEndW lines (indentTab (lines.getD d "")) (lines.length + 1) (d + 1))
    (hkfs : starts (pyStrip (lines.getD k "")) "formatString:" = true)
    (honly : ∀ j,
      j < scanEndW lines (indentTab (lines.getD d "")) (lines.length + 1) (d + 1) →
      d < j → j ≠ k → starts (pyStrip (lines.getD j "")) "formatString:" = false) :
    ∀ fuel pos acc, lines.length ≤ fuel + pos → d < pos → pos ≤ k →
      updGo lines "measure" nm [("format_string", v)] fuel pos true
          (indentTab (lines.getD d "")) [] acc
        = acc ++ (lines.set k (tabs (indentTab (lines.getD d "") + 1)
            ++ toTmdlProp "format_string" ++ ": " ++ formatValue v)).drop pos := by
  have hble : scanEndW lines (indentTab (lines.getD d "")) (lines.length + 1) (d + 1)
      ≤ lines.length :=
    scanEndW_le lines (indentTab (lines.getD d "")) (lines.length + 1) (d + 1)
      (by omega) (by omega)
  intro fuel
  induction fuel with
  | zero =>
    intro pos acc h1 _ hposk
    exact ((by omega : False)).elim
  | succ fuel ih =>
    intro pos acc h1 hdpos hposk
    have hpos : pos < lines.length := by omega
    have hel : isElementDefinition (lines.getD pos "") "measure" nm = false :=
      huniq pos hpos (by omega)
    have hcond : (nonBlank (lines.getD pos "") &&
        decide (indentTab (lines.getD pos "") ≤ indentTab (lines.getD d ""))) = false :=
      scanEndW_min lines (indentTab (lines.getD d "")) (lines.length + 1) (d + 1)
        pos (by omega) (by omega)
    rcases lt_or_eq_of_le hposk with hlt | heq
    · have hfindnone := find_fs_none (lines.getD pos "") v
        (honly pos (by omega) (by omega) (by omega))
      rw [show updGo lines "measure" nm [("format_string", v)] (fuel + 1) pos true
          (indentTab (lines.getD d "")) [] acc
          = updGo lines "measure" nm [("format_string", v)] fuel (pos + 1) true
              (indentTab (lines.getD d "")) [] (acc ++ [lines.getD pos ""]) from by
        simp only [updGo]
        rw [if_pos hpos, if_neg (by rw [hel]; exact Bool.false_ne_true),
          if_pos trivial,
          if_neg (by rw [hcond]; exact Bool.false_ne_true), hfindnone]]
      rw [ih (pos + 1) _ (by omega) (by omega) hlt]
      have hset : pos < (lines.set k (tabs (indentTab (lines.getD d "") + 1)
          ++ toTmdlProp "format_string" ++ ": " ++ formatValue v)).length := by
        rw [List.length_set]; omega
      have hhead : (lines.set k (tabs (indentTab (lines.getD d "") + 1)
          ++ toTmdlProp "format_string" ++ ": " ++ formatValue v)).getD pos ""
          = lines.getD pos "" := by
        rw [List.getD_eq_getElem?_getD, List.getElem?_set_ne (by omega),
          ← List.getD_eq_getElem?_getD]
      rw [drop_cons_getD _ pos hset, hhead]
      simp
    · subst heq
      have hfindsome := find_fs_some (lines.getD pos "") v hkfs
      rw [show updGo lines "measure" nm [("format_string", v)] (fuel + 1) pos true
          (indentTab (lines.getD d "")) [] acc
          = updGo lines "measure" nm [("format_string", v)] fuel (pos + 1) true
              (indentTab (lines.getD d "")) ["format_string"]
              (acc ++ [tabs (indentTab (lines.getD d "") + 1)
                ++ toTmdlProp "format_string" ++ ": " ++ formatValue v]) from by
        simp only [updGo]
        rw [if_pos hpos, if_neg (by rw [hel]; exact Bool.false_ne_true),
          if_pos trivial,
          if_neg (by rw [hcond]; exact Bool.false_ne_true), hfindsome]]
      rw [updGo_after_fs lines nm v d hd huniq fuel (pos + 1) _ (by omega) (by omega)
        hk2 (fun j hj1 hj2 => honly j hj2 (by omega) (by omega))]
      have hset : pos < (lines.set pos (tabs (indentTab (lines.getD d "") + 1)
          ++ toTmdlProp "format_string" ++ ": " ++ formatValue v)).length := by
        rw [List.length_set]; omega
      have hhead : (lines.set pos (tabs (indentTab (lines.getD d "") + 1)
          ++ toTmdlProp "format_string" ++ ": " ++ formatValue v)).getD pos ""
          = tabs (indentTab (lines.getD d "") + 1)
            ++ toTmdlProp "format_string" ++ ": " ++ formatValue v := by
        rw [List.getD_eq_getElem?_getD, List.getElem?_set_self] <;> simp [hpos]
      have hdrop : (lines.set pos (tabs (indentTab (lines.getD d "") + 1)
          ++ toTmdlProp "format_string" ++ ": " ++ formatValue v)).drop (pos + 1)
          = lines.drop (pos + 1) := by
        rw [List.drop_set, if_pos (by omega : pos < pos + 1)]
      rw [drop_cons_getD _ pos hset, hhead, hdrop]
      simp

/-- Before the measure's definition line, the update loop copies every line
unchanged and then processes the block. -/
theorem updGo_prefix_fs (lines : List String) (nm : String) (v : UVal) (d k : Nat)
    (hd : d < lines.length)
    (hdef : isElementDefinition (lines.getD d "") "measure" nm = true)
    (huniq : ∀ j, j < lines.length → j ≠ d →
      isElementDefinition (lines.getD j "") "measure" nm = false)
    (hk1 : d < k)
    (hk2 : k < scanEndW lines (indentTab (lines.getD d "")) (lines.length + 1) (d + 1))
    (hkfs : starts (pyStrip (lines.getD k "")) "formatString:" = true)
    (honly : ∀ j,
      j < scanEndW lines (indentTab (lines.getD d "")) (lines.length + 1) (d + 1) →
      d < j → j ≠ k → starts (pyStrip (lines.getD j "")) "formatString:" = false) :
    ∀ fuel pos elInd0 acc, lines.length ≤ fuel + pos → pos ≤ d →
      updGo lines "measure" nm [("format_string", v)] fuel pos false elInd0 [] acc
        = acc ++ (lines.set k (tabs (indentTab (lines.getD d "") + 1)
            ++ toTmdlProp "format_string" ++ ": " ++ formatValue v)).drop pos := by
  intro fuel
  induction fuel with
  | zero =>
    intro pos elInd0 acc h1 hposd
    exact ((by omega : False)).elim
  | succ fuel ih =>
    intro pos elInd0 acc h1 hposd
    have hpos : pos < lines.length := by omega
    rcases lt_or_eq_of_le hposd with hlt | heq
    · have hel : isElementDefinition (lines.getD pos "") "measure" nm = false :=
        huniq pos hpos (by omega)
      rw [show updGo lines "measure" nm [("format_string", v)] (fuel + 1) pos false
          elInd0 [] acc
          = updGo lines "measure" nm [("format_string", v)] fuel (pos + 1) false
              elInd0 [] (acc ++ [lines.getD pos ""]) from by
        simp only [updGo]
        rw [if_pos hpos, if_neg (by rw [hel]; exact Bool.false_ne_true),
          if_neg Bool.false_ne_true]]
      rw [ih (pos + 1) elInd0 _ (by omega) (by omega)]
      have hset : pos < (lines.set k (tabs (indentTab (lines.getD d "") + 1)
          ++ toTmdlProp "format_string" ++ ": " ++ formatValue v)).length := by
        rw [List.length_set]; omega
      have hhead : (lines.set k (tabs (indentTab (lines.getD d "") + 1)
          ++ toTmdlProp "format_string" ++ ": " ++ formatValue v)).getD pos ""
          = lines.getD pos "" := by
        rw [List.getD_eq_getElem?_getD, List.getElem?_set_ne (by omega),
          ← List.getD_eq_getElem?_getD]
      rw [drop_cons_getD _ pos hset, hhead]
      simp
    · subst heq
      have hexpr : ((("measure" : String) == "measure" || ("measure" : String) == "column")
          && (updLookup [("format_string", v)] "expression").isSome) = false := rfl
      rw [show updGo lines "measure" nm [("format_string", v)] (fuel + 1) pos false
          elInd0 [] acc
          = updGo lines "measure" nm [("format_string", v)] fuel (pos + 1) true
              (indentTab (lines.getD pos "")) [] (acc ++ [lines.getD pos ""]) from by
        simp only [updGo]
        rw [if_pos hpos, if_pos hdef, if_neg (by rw [hexpr]; exact Bool.false_ne_true)]]
      rw [updGo_mid_fs lines nm v pos k hd huniq hk1 hk2 hkfs honly fuel (pos + 1) _
        (by omega) (by omega) (by omega)]
      have hset : pos < (lines.set k (tabs (indentTab (lines.getD pos "") + 1)
          ++ toTmdlProp "format_string" ++ ": " ++ formatValue v)).length := by
        rw [List.length_set]; omega
      have hhead : (lines.set k (tabs (indentTab (lines.getD pos "") + 1)
          ++ toTmdlProp "format_string" ++ ": " ++ formatValue v)).getD pos ""
          = lines.getD pos "" := by
        rw [List.getD_eq_getElem?_getD, List.getElem?_set_ne (by omega),
          ← List.getD_eq_getElem?_getD]
      rw [drop_cons_getD _ pos hset, hhead]
      simp

/-- C4: on a file whose unique definition line for measure `nm` is line `d` and
whose block contains exactly one `formatString:` line `k`, updating only
`format_string` replaces exactly line `k`: the result is `lines.set k`, so the
measure's expression (definition) line and every sibling element's text are
byte-identical to the input. -/
theorem C4_update_format_string_property_local (lines : List String) (nm : String)
    (v : UVal) (d k : Nat)
    (hd : d < lines.length)
    (hdef : isElementDefinition (lines.getD d "") "measure" nm = true)
    (huniq : ∀ j, j < lines.length → j ≠ d →
      isElementDefinition (lines.getD j "") "measure" nm = false)
    (hk1 : d < k)
    (hk2 : k < scanEndW lines (indentTab (lines.getD d "")) (lines.length + 1) (d + 1))
    (hkfs : starts (pyStrip (lines.getD k "")) "formatString:" = true)
    (honly : ∀ j,
      j < scanEndW lines (indentTab (lines.getD d "")) (lines.length + 1) (d + 1) →
      d < j → j ≠ k → starts (pyStrip (lines.getD j "")) "formatString:" = false) :
    updateElementLines lines "measure" nm [("format_string", v)]
      = lines.set k (tabs (indentTab (lines.getD d "") + 1)
          ++ toTmdlProp "format_string" ++ ": " ++ formatValue v) ∧
    ∀ j, j ≠ k →
      (updateElementLines lines "measure" nm [("format_string", v)]).getD j ""
        = lines.getD j "" := by
  have hmain : updateElementLines lines "measure" nm [("format_string", v)]
      = lines.set k (tabs (indentTab (lines.getD d "") + 1)
          ++ toTmdlProp "format_string" ++ ": " ++ formatValue v) := by
    unfold updateElementLines
    rw [updGo_prefix_fs lines nm v d k hd hdef huniq hk1 hk2 hkfs honly
      (lines.length + 1) 0 0 [] (by omega) (by omega)]
    simp
  refine ⟨hmain, fun j hj => ?_⟩
  rw [hmain, List.getD_eq_getElem?_getD _ j, List.getElem?_set_ne (by omega),
    ← List.getD_eq_getElem?_getD]

/-- Witness for `C4_update_format_string_property_local`: a table with two
measures; updating `format_string` of `M` rewrites only line 2. -/
theorem C4_update_format_string_property_local_witness :
    updateElementLines
        ["table T", "\tmeasure M = 1 + 1", "\t\tformatString: 0.0",
          "\t\tlineageTag: x", "\tmeasure K = 2"] "measure" "M"
        [("format_string", UVal.str "#,0")]
      = ["table T", "\tmeasure M = 1 + 1", "\t\tformatString: \"#,0\"",
          "\t\tlineageTag: x", "\tmeasure K = 2"] := by
  have h := (C4_update_format_string_property_local
    ["table T", "\tmeasure M = 1 + 1", "\t\tformatString: 0.0",
      "\t\tlineageTag: x", "\tmeasure K = 2"] "M" (UVal.str "#,0") 1 2
    (by decide) (by decide) (by decide) (by decide) (by decide) (by decide)
    (by decide)).1
  rw [h]
  rfl

/-- An element definition line starts (stripped) with the element keyword, so
it cannot also be a `///` description comment (for keywords not starting
with `/`). -/
theorem desc_not_element (line ty nm : String) (hty : starts ty "/" = false)
    (hel : isElementDefinition line ty nm = true) :
    starts (pyStrip line) "///" = false := by
  have hpre : starts (pyStrip line) (ty ++ " ") = true := by
    by_cases hs : starts (pyStrip line) (ty ++ " ") = true
    · exact hs
    · exfalso
      have hs' : starts (pyStrip line) (ty ++ " ") = false := by
        revert hs
        cases starts (pyStrip line) (ty ++ " ") <;> simp
      simp [isElementDefinition, hs'] at hel
  by_cases hdsc : starts (pyStrip line) "///" = true
  case neg =>
    revert hdsc
    cases starts (pyStrip line) "///" <;> simp
  case pos =>
    exfalso
    have h1 : ("///" : String).data <+: (pyStrip line).data :=
      List.isPrefixOf_iff_prefix.mp hdsc
    have h2 : (ty ++ " ").data <+: (pyStrip line).data :=
      List.isPrefixOf_iff_prefix.mp hpre
    have hd2 : (ty ++ " ").data = ty.data ++ [' '] := rfl
    rcases h1 with ⟨t1, ht1⟩
    rcases h2 with ⟨t2, ht2⟩
    rw [hd2] at ht2
    have hcomb : ("///" : String).data ++ t1 = (ty.data ++ [' ']) ++ t2 := by
      rw [ht1, ht2]
    rw [show ("///" : String).data = ['/', '/', '/'] from rfl] at hcomb
    cases hty2 : ty.data with
    | nil =>
      rw [hty2] at hcomb
      simp at hcomb
    | cons c cs =>
      rw [hty2] at hcomb
      simp at hcomb
      unfold starts at hty
      rw [hty2, show ("/" : String).data = ['/'] from rfl] at hty
      simp [List.isPrefixOf] at hty
      exact hty hcomb.1

/-- After the deleted block has been passed, the delete loop copies every
remaining line unchanged when no remaining line is an element definition for
the requested type and name. -/
theorem delGo_copy_after (lines : List String) (ty nm : String) :
    ∀ fuel pos elInd di acc, lines.length ≤ fuel + pos →
      (∀ j, pos ≤ j → j < lines.length →
        isElementDefinition (lines.getD j "") ty nm = false) →
      delGo lines ty nm fuel pos false elInd false false di acc
        = acc ++ lines.drop pos := by
  intro fuel
  induction fuel with
  | zero =>
    intro pos elInd di acc h1 _
    rw [show lines.drop pos = [] from List.drop_eq_nil_of_le (by omega)]
    simp [delGo]
  | succ fuel ih =>
    intro pos elInd di acc h1 habs
    by_cases hpos : pos < lines.length
    case neg =>
      rw [show lines.drop pos = [] from List.drop_eq_nil_of_le (by omega)]
      rw [show delGo lines ty nm (fuel + 1) pos false elInd false false di acc = acc from by
        simp only [delGo]; rw [if_neg hpos]]
      simp
    · have hel : isElementDefinition (lines.getD pos "") ty nm = false :=
        habs pos (le_refl pos) hpos
      have htrig : (!false && decide (pos + 1 < lines.length) &&
          isElementDefinition (lines.getD (pos + 1) "") ty nm &&
          starts (pyStrip (lines.getD pos "")) "///") = false := by
        by_cases hnext : pos + 1 < lines.length
        · have h2 : isElementDefinition (lines.getD (pos + 1) "") ty nm = false :=
            habs (pos + 1) (by omega) hnext
          rw [h2]
          simp only [Bool.and_false, Bool.false_and]
        · rw [show (decide (pos + 1 < lines.length)) = false from by simp [hnext]]
          simp only [Bool.and_false, Bool.false_and]
      rw [show delGo lines ty nm (fuel + 1) pos false elInd false false di acc
          = delGo lines ty nm fuel (pos + 1) false elInd false false di
              (acc ++ [lines.getD pos ""]) from by
        simp only [delGo]
        rw [if_pos hpos, if_neg (by rw [htrig]; exact Bool.false_ne_true),
          if_neg (by simp : ¬((false && starts (pyStrip (lines.getD pos "")) "///" &&
            (indentTab (lines.getD pos "") == di)) = true)),
          if_neg (by rw [hel]; exact Bool.false_ne_true),
          if_neg Bool.false_ne_true,
          if_neg (by simp : ¬((false && isBlank (lines.getD pos "")) = true))]]
      rw [ih (pos + 1) elInd di _ (by omega) (fun j hj1 hj2 => habs j (by omega) hj2)]
      rw [drop_cons_getD lines pos hpos]
      simp

/-- Inside the deleted block, the delete loop drops every line up to (but not
including) the block-end line and then copies the rest of the file. -/
theorem delGo_in_block (lines : List String) (ty nm : String) (d : Nat)
    (hd : d < lines.length)
    (huniq : ∀ j, j < lines.length → j ≠ d →
      isElementDefinition (lines.getD j "") ty nm = false) :
    ∀ fuel pos se di acc, lines.length ≤ fuel + pos → d < pos →
      pos ≤ scanEndW lines (indentTab (lines.getD d "")) (lines.length + 1) (d + 1) →
      delGo lines ty nm fuel pos true (indentTab (lines.getD d "")) se false di acc
        = acc ++ lines.drop
            (scanEndW lines (indentTab (lines.getD d "")) (lines.length + 1) (d + 1)) := by
  have hble : scanEndW lines (indentTab (lines.getD d "")) (lines.length + 1) (d + 1)
      ≤ lines.length :=
    scanEndW_le lines (indentTab (lines.getD d "")) (lines.length + 1) (d + 1)
      (by omega) (by omega)
  intro fuel
  induction fuel with
  | zero =>
    intro pos se di acc h1 h2 h3
    rw [show lines.drop (scanEndW lines (indentTab (lines.getD d ""))
        (lines.length + 1) (d + 1)) = [] from List.drop_eq_nil_of_le (by omega)]
    simp [delGo]
  | succ fuel ih =>
    intro pos se di acc h1 h2 h3
    by_cases hpos : pos < lines.length
    case neg =>
      rw [show lines.drop (scanEndW lines (indentTab (lines.getD d ""))
          (lines.length + 1) (d + 1)) = [] from List.drop_eq_nil_of_le (by omega)]
      rw [show delGo lines ty nm (fuel + 1) pos true (indentTab (lines.getD d ""))
          se false di acc = acc from by
        simp only [delGo]; rw [if_neg hpos]]
      simp
    · have hel : isElementDefinition (lines.getD pos "") ty nm = false :=
        huniq pos hpos (by omega)
      rcases lt_or_eq_of_le h3 with hlt | heq
      · have hcond : (nonBlank (lines.getD pos "") &&
            decide (indentTab (lines.getD pos "") ≤ indentTab (lines.getD d ""))) = false :=
          scanEndW_min lines (indentTab (lines.getD d "")) (lines.length + 1) (d + 1)
            pos (by omega) hlt
        rw [show delGo lines ty nm (fuel + 1) pos true (indentTab (lines.getD d ""))
            se false di acc
            = delGo lines ty nm fuel (pos + 1) true (indentTab (lines.getD d ""))
                se false di acc from by
          simp only [delGo]
          rw [if_pos hpos,
            if_neg (by simp : ¬((!true && decide (pos + 1 < lines.length) &&
              isElementDefinition (lines.getD (pos + 1) "") ty nm &&
              starts (pyStrip (lines.getD pos "")) "///") = true)),
            if_neg (by simp : ¬((false && starts (pyStrip (lines.getD pos "")) "///" &&
              (indentTab (lines.getD pos "") == di)) = true)),
            if_neg (by rw [hel]; exact Bool.false_ne_true),
            if_pos trivial,
            if_neg (by rw [hcond]; exact Bool.false_ne_true)]]
        exact ih (pos + 1) se di acc (by omega) (by omega) hlt
      · have hcond : (nonBlank (lines.getD pos "") &&
            decide (indentTab (lines.getD pos "") ≤ indentTab (lines.getD d ""))) = true := by
          rw [heq]
          exact scanEndW_hit lines (indentTab (lines.getD d "")) (lines.length + 1)
            (d + 1) (by omega) (by omega)
        rw [show delGo lines ty nm (fuel + 1) pos true (indentTab (lines.getD d ""))
            se false di acc
            = delGo lines ty nm fuel (pos + 1) false (indentTab (lines.getD d ""))
                false false di (acc ++ [lines.getD pos ""]) from by
          simp only [delGo]
          rw [if_pos hpos,
            if_neg (by simp : ¬((!true && decide (pos + 1 < lines.length) &&
              isElementDefinition (lines.getD (pos + 1) "") ty nm &&
              starts (pyStrip (lines.getD pos "")) "///") = true)),
            if_neg (by simp : ¬((false && starts (pyStrip (lines.getD pos "")) "///" &&
              (indentTab (lines.getD pos "") == di)) = true)),
            if_neg (by rw [hel]; exact Bool.false_ne_true),
            if_pos trivial,
            if_pos hcond]]
        rw [delGo_copy_after lines ty nm fuel (pos + 1) _ _ _ (by omega)
          (fun j hj1 hj2 => huniq j hj2 (by omega))]
        rw [← heq, drop_cons_getD lines pos hpos]
        simp

/-- At the definition line (with or without a pending description removal),
the delete loop drops the whole block and copies the rest of the file. -/
theorem delGo_at_def (lines : List String) (ty nm : String) (d : Nat)
    (hty : starts ty "/" = false)
    (hd : d < lines.length)
    (hdef : isElementDefinition (lines.getD d "") ty nm = true)
    (huniq : ∀ j, j < lines.length → j ≠ d →
      isElementDefinition (lines.getD j "") ty nm = false) :
    ∀ fuel rd0 elInd0 di0 acc, lines.length ≤ fuel + d →
      delGo lines ty nm fuel d false elInd0 false rd0 di0 acc
        = acc ++ lines.drop
            (scanEndW lines (indentTab (lines.getD d "")) (lines.length + 1) (d + 1)) := by
  intro fuel rd0 elInd0 di0 acc h1
  have hnod : starts (pyStrip (lines.getD d "")) "///" = false :=
    desc_not_element (lines.getD d "") ty nm hty hdef
  cases fuel with
  | zero => exact ((by omega : False)).elim
  | succ fuel =>
    rw [show delGo lines ty nm (fuel + 1) d false elInd0 false rd0 di0 acc
        = delGo lines ty nm fuel (d + 1) true (indentTab (lines.getD d ""))
            true false di0 acc from by
      simp only [delGo]
      rw [if_pos hd,
        if_neg (by rw [hnod]; simp),
        if_neg (by rw [hnod]; simp),
        if_pos hdef]]
    exact delGo_in_block lines ty nm d hd huniq fuel (d + 1) true di0 acc
      (by omega) (by omega)
      (scanEndW_ge lines (indentTab (lines.getD d "")) (lines.length + 1) (d + 1))

/-- Before the deleted block, the delete loop copies every line up to the
deletion start (the single preceding `///` line, if any, is dropped). -/
theorem delGo_prefix_del (lines : List String) (ty nm : String) (d t : Nat)
    (hty : starts ty "/" = false)
    (hd : d < lines.length)
    (hdef : isElementDefinition (lines.getD d "") ty nm = true)
    (huniq : ∀ j, j < lines.length → j ≠ d →
      isElementDefinition (lines.getD j "") ty nm = false)
    (ht : t = if 0 < d ∧ starts (pyStrip (lines.getD (d - 1) "")) "///" = true
        then d - 1 else d) :
    ∀ fuel pos elInd0 di0 acc, lines.length ≤ fuel + pos → pos ≤ t →
      delGo lines ty nm fuel pos false elInd0 false false di0 acc
        = acc ++ List.take (t - pos) (lines.drop pos)
            ++ lines.drop
              (scanEndW lines (indentTab (lines.getD d "")) (lines.length + 1) (d + 1)) := by
  have htd : t ≤ d := by
    rcases Classical.em (0 < d ∧ starts (pyStrip (lines.getD (d - 1) "")) "///" = true)
      with hc | hc
    · rw [ht, if_pos hc]; omega
    · rw [ht, if_neg hc]
  intro fuel
  induction fuel with
  | zero =>
    intro pos elInd0 di0 acc h1 h2
    exact ((by omega : False)).elim
  | succ fuel ih =>
    intro pos elInd0 di0 acc h1 h2
    have hpos : pos < lines.length := by omega
    rcases lt_or_eq_of_le h2 with hlt | heq
    · have hb1 : (!false && decide (pos + 1 < lines.length) &&
          isElementDefinition (lines.getD (pos + 1) "") ty nm &&
          starts (pyStrip (lines.getD pos "")) "///") = false := by
        by_cases hpd : pos + 1 = d
        · have htd' : t = d := by omega
          have hcond : ¬(0 < d ∧ starts (pyStrip (lines.getD (d - 1) "")) "///" = true) := by
            intro hc
            rw [if_pos hc] at ht
            omega
          have hnostar : starts (pyStrip (lines.getD pos "")) "///" = false := by
            by_cases hss : starts (pyStrip (lines.getD pos "")) "///" = true
            · exact absurd ⟨by omega, by
                rw [show d - 1 = pos from by omega]; exact hss⟩ hcond
            · revert hss
              cases starts (pyStrip (lines.getD pos "")) "///" <;> simp
          rw [hnostar, Bool.and_false]
        · have hel1 : isElementDefinition (lines.getD (pos + 1) "") ty nm = false :=
            huniq (pos + 1) (by omega) hpd
          rw [hel1]
          simp only [Bool.and_false, Bool.false_and]
      rw [show delGo lines ty nm (fuel + 1) pos false elInd0 false false di0 acc
          = delGo lines ty nm fuel (pos + 1) false elInd0 false false di0
              (acc ++ [lines.getD pos ""]) from by
        simp only [delGo]
        rw [if_pos hpos, if_neg (by rw [hb1]; exact Bool.false_ne_true),
          if_neg (by simp : ¬((false && starts (pyStrip (lines.getD pos "")) "///" &&
            (indentTab (lines.getD pos "") == di0)) = true)),
          if_neg (by rw [huniq pos hpos (by omega)]; exact Bool.false_ne_true),
          if_neg Bool.false_ne_true,
          if_neg (by simp : ¬((false && isBlank (lines.getD pos "")) = true))]]
      rw [ih (pos + 1) elInd0 di0 _ (by omega) (by omega)]
      rw [show lines.drop pos = lines.getD pos "" :: lines.drop (pos + 1) from
        drop_cons_getD lines pos hpos]
      rw [show t - pos = (t - (pos + 1)) + 1 from by omega, List.take_succ_cons]
      simp
    · subst heq
      by_cases hdsc : 0 < d ∧ starts (pyStrip (lines.getD (d - 1) "")) "///" = true
      · have htd1 : pos = d - 1 := by rw [ht, if_pos hdsc]
        have hpd : pos + 1 = d := by omega
        have hb1 : (!false && decide (pos + 1 < lines.length) &&
            isElementDefinition (lines.getD (pos + 1) "") ty nm &&
            starts (pyStrip (lines.getD pos "")) "///") = true := by
          rw [hpd, hdef, show (pos : Nat) = d - 1 from htd1, hdsc.2]
          simp [hd]
        rw [show delGo lines ty nm (fuel + 1) pos false elInd0 false false di0 acc
            = delGo lines ty nm fuel (pos + 1) false elInd0 false true
                (indentTab (lines.getD pos "")) acc from by
          simp only [delGo]
          rw [if_pos hpos, if_pos hb1]]
        rw [hpd]
        rw [delGo_at_def lines ty nm d hty hd hdef huniq fuel true elInd0
          (indentTab (lines.getD pos "")) acc (by omega)]
        rw [show pos - pos = 0 from by omega]
        simp
      · have htd1 : pos = d := by rw [ht, if_neg hdsc]
        rw [show pos - pos = 0 from by omega]
        rw [htd1]
        rw [delGo_at_def lines ty nm d hty hd hdef huniq (fuel + 1) false elInd0
          di0 acc (by omega)]
        simp

/-- C2 counterexample: deleting measure `M`, which is preceded by a contiguous
run of two `///` description lines, keeps the first `///` line — only the
single line directly above the definition is removed, so the output differs
from the full-run removal the claim describes. -/
theorem C2_description_run_left_behind :
    deleteElement
        "table T\n\t/// line one\n\t/// line two\n\tmeasure M = 1\n\t\tlineageTag: x\n\tmeasure K = 2"
        "measure" "M"
      = "table T\n\t/// line one\n\tmeasure K = 2" ∧
    deleteElement
        "table T\n\t/// line one\n\t/// line two\n\tmeasure M = 1\n\t\tlineageTag: x\n\tmeasure K = 2"
        "measure" "M"
      ≠ "table T\n\tmeasure K = 2" := by
  constructor
  · rfl
  · decide

/-- C2 (amended): for a unique definition line `d` of the requested element,
`delete_element` removes the lines from the deletion start up to (not
including) the block end — the first following non-blank line with indentation
at most the definition line's, so trailing blank lines inside the block are
consumed — where the deletion start is `d - 1` when the line directly above
the definition starts (stripped) with `///` (regardless of its indentation),
and `d` otherwise; description lines further above survive. -/
theorem C2_delete_block_and_single_description_line (lines : List String)
    (ty nm : String) (d : Nat)
    (hty : starts ty "/" = false)
    (hd : d < lines.length)
    (hdef : isElementDefinition (lines.getD d "") ty nm = true)
    (huniq : ∀ j, j < lines.length → j ≠ d →
      isElementDefinition (lines.getD j "") ty nm = false) :
    deleteElementLines lines ty nm
      = lines.take (if 0 < d ∧ starts (pyStrip (lines.getD (d - 1) "")) "///" = true
            then d - 1 else d)
        ++ lines.drop
            (scanEndW lines (indentTab (lines.getD d "")) (lines.length + 1) (d + 1)) := by
  unfold deleteElementLines
  rw [delGo_prefix_del lines ty nm d
    (if 0 < d ∧ starts (pyStrip (lines.getD (d - 1) "")) "///" = true then d - 1 else d)
    hty hd hdef huniq rfl (lines.length + 1) 0 0 0 [] (by omega) (Nat.zero_le _)]
  simp

/-- Witness for `C2_delete_block_and_single_description_line`: deleting
measure `M` keeps the first `///` line, removes the second one, the block and
its trailing blank line, and keeps the sibling measure `K`. -/
theorem C2_delete_block_and_single_description_line_witness :
    deleteElementLines
        ["table T", "\t/// desc one", "\t/// desc two", "\tmeasure M = 1",
          "\t\tlineageTag: x", "", "\tmeasure K = 2"] "measure" "M"
      = ["table T", "\t/// desc one", "\tmeasure K = 2"] := by
  rw [C2_delete_block_and_single_description_line
    ["table T", "\t/// desc one", "\t/// desc two", "\tmeasure M = 1",
      "\t\tlineageTag: x", "", "\tmeasure K = 2"] "measure" "M" 3
    (by decide) (by decide) (by decide) (by decide)]
  rfl

end TMDLWriter

end Pbip
